import Mathlib

/-!
# User service of `main.go`: handlers over a Redis store

A shallow embedding of the four gin handlers of `main.go` (`GetAllUsers`,
`GetUserByName`, `PutUser`, `UpdatePoints`) together with executable models of
the libraries they call:

* `encoding/json`, as far as the `User` struct observes it: `Marshal`,
  `Unmarshal`, and the decoder behind gin's `ShouldBindJSON`. Texts are parsed
  for real (whitespace, escapes, number literals, nested values, keys matched
  up to case); parsing loops run on fuel, the length of the input.
* The go-redis commands `Keys`, `Get` and `Set` over a key/value store. The
  store is a list of pairs in enumeration order; the connection carries the
  outcome of each of the coming commands, so that a command can fail with a
  communication error, and the log of the commands sent.
* gin's `c.JSON`, as a status code plus the value handed over, and the JSON
  text written for the slice of users.

Go strings are modelled by Lean strings, that is by the well-formed UTF-8 ones;
Go's `int` is the 64-bit signed integer and is modelled by `Int` together with
the range check the JSON decoder performs. Handlers are functions of the path
parameter and the request body; routing is not modelled.
-/

namespace UserService

/-! ## The data model -/

/-- The `User` struct of `main.go` (JSON fields `username` and `points`). -/
structure User where
  Username : String
  Points : Int
deriving DecidableEq, Repr

/-- The anonymous struct `updateData` of `UpdatePoints` (JSON field `points`). -/
structure UpdateData where
  Points : Int
deriving DecidableEq, Repr

/-- A Go slice of users: `none` is the nil slice of `var users []User`. -/
abbrev Slice (α : Type) := Option (List α)

/-- Go's `append(s, x)`: appending to the nil slice allocates. -/
def Slice.append {α : Type} : Slice α → α → Slice α
  | none, x => some [x]
  | some l, x => some (l ++ [x])

/-- The elements of a slice, the nil slice having none (`len(nil) = 0`). -/
def Slice.elems {α : Type} : Slice α → List α
  | none => []
  | some l => l

/-! ## `encoding/json`: writing -/

/-- The lower-case hexadecimal digit of `n < 16` (Go's `hex` table). -/
def hexDigit (n : Nat) : Char :=
  if n < 10 then Char.ofNat (0x30 + n) else Char.ofNat (0x57 + n)

/-- How `json.Marshal` writes one character of a string (HTML escaping on):
`"` and `\` get a backslash, the five short escapes `\b \f \n \r \t`, every other
control character and `<`, `>`, `&` as `\u00XY`, U+2028 and U+2029 as `\u202X`,
anything else as itself. -/
def escapeChar (c : Char) : List Char :=
  let n := c.toNat
  if n = 0x22 ∨ n = 0x5c then [Char.ofNat 0x5c, c]
  else if n = 0x08 then [Char.ofNat 0x5c, Char.ofNat 0x62]
  else if n = 0x0c then [Char.ofNat 0x5c, Char.ofNat 0x66]
  else if n = 0x0a then [Char.ofNat 0x5c, Char.ofNat 0x6e]
  else if n = 0x0d then [Char.ofNat 0x5c, Char.ofNat 0x72]
  else if n = 0x09 then [Char.ofNat 0x5c, Char.ofNat 0x74]
  else if n < 0x20 ∨ n = 0x3c ∨ n = 0x3e ∨ n = 0x26 then
    [Char.ofNat 0x5c, Char.ofNat 0x75, Char.ofNat 0x30, Char.ofNat 0x30,
      hexDigit (n / 16), hexDigit (n % 16)]
  else if n = 0x2028 ∨ n = 0x2029 then
    [Char.ofNat 0x5c, Char.ofNat 0x75, Char.ofNat 0x32, Char.ofNat 0x30,
      Char.ofNat 0x32, hexDigit (n % 16)]
  else [c]

/-- The characters of a JSON string literal for `s`, without the quotes. -/
def escape : List Char → List Char
  | [] => []
  | c :: cs => escapeChar c ++ escape cs

/-- A quoted JSON string literal. -/
def quoteString (s : String) : List Char :=
  Char.ofNat 0x22 :: (escape s.data ++ [Char.ofNat 0x22])

/-- Decimal digits of `n`, most significant first, pushed in front of `acc`. -/
def fmtDigits : Nat → Nat → List Char → List Char
  | 0, _, acc => acc
  | fuel + 1, n, acc =>
    let acc1 := Char.ofNat (0x30 + n % 10) :: acc
    if n < 10 then acc1 else fmtDigits fuel (n / 10) acc1

/-- Decimal notation of a natural number (`strconv.FormatUint`). -/
def fmtNat (n : Nat) : List Char := fmtDigits (n + 1) n []

/-- Decimal notation of an integer (`strconv.FormatInt`). -/
def fmtInt : Int → List Char
  | Int.ofNat n => fmtNat n
  | Int.negSucc n => Char.ofNat 0x2d :: fmtNat (n + 1)

/-- The text `json.Marshal` produces for a `User`:
`{"username":"...","points":N}`, fields in declaration order. -/
def marshalUser (u : User) : List Char :=
  "\x7b\"username\":".data ++ quoteString u.Username ++ ",\"points\":".data
    ++ fmtInt u.Points ++ "\x7d".data

/-- Model of `json.Marshal(user)`. For this struct type it cannot fail. -/
def Marshal (u : User) : Except String String :=
  .ok (String.mk (marshalUser u))

/-! ## `encoding/json`: reading -/

/-- JSON whitespace: space, tab, line feed, carriage return. -/
def isSpace (c : Char) : Bool :=
  c.toNat = 0x20 ∨ c.toNat = 0x09 ∨ c.toNat = 0x0a ∨ c.toNat = 0x0d

def isDigit (c : Char) : Bool := 0x30 ≤ c.toNat ∧ c.toNat ≤ 0x39

def skipSpace : List Char → List Char
  | [] => []
  | c :: cs => if isSpace c then skipSpace cs else c :: cs

/-- Value of a hexadecimal digit, either case. -/
def hexVal (c : Char) : Option Nat :=
  let n := c.toNat
  if 0x30 ≤ n ∧ n ≤ 0x39 then some (n - 0x30)
  else if 0x61 ≤ n ∧ n ≤ 0x66 then some (n - 0x57)
  else if 0x41 ≤ n ∧ n ≤ 0x46 then some (n - 0x37)
  else none

/-- Go's `getu4`: the code unit of a leading `\uXXXX`, if there is one. -/
def getu4 : List Char → Option Nat
  | b :: u :: h1 :: h2 :: h3 :: h4 :: _ =>
    if b.toNat = 0x5c ∧ u.toNat = 0x75 then
      match hexVal h1, hexVal h2, hexVal h3, hexVal h4 with
      | some a, some b, some c, some d => some (((a * 16 + b) * 16 + c) * 16 + d)
      | _, _, _, _ => none
    else none
  | _ => none

/-- One character of a string literal's body: a raw character (no quote, no
backslash, no control character) or an escape sequence. `\u` escapes that are
surrogates combine into one character when they form a pair and otherwise
become U+FFFD. -/
def unquoteStep : List Char → Option (Char × List Char)
  | [] => none
  | c :: cs =>
    if c.toNat = 0x5c then
      match cs with
      | [] => none
      | e :: rest =>
        let k := e.toNat
        if k = 0x22 ∨ k = 0x5c ∨ k = 0x2f then some (e, rest)
        else if k = 0x62 then some (Char.ofNat 0x08, rest)
        else if k = 0x66 then some (Char.ofNat 0x0c, rest)
        else if k = 0x6e then some (Char.ofNat 0x0a, rest)
        else if k = 0x72 then some (Char.ofNat 0x0d, rest)
        else if k = 0x74 then some (Char.ofNat 0x09, rest)
        else if k = 0x75 then
          match getu4 (c :: cs) with
          | none => none
          | some rr =>
            let rest1 := rest.drop 4
            if 0xd800 ≤ rr ∧ rr < 0xe000 then
              match getu4 rest1 with
              | some rr1 =>
                if rr < 0xdc00 ∧ 0xdc00 ≤ rr1 ∧ rr1 < 0xe000 then
                  some (Char.ofNat ((rr - 0xd800) * 0x400 + (rr1 - 0xdc00) + 0x10000),
                    rest1.drop 6)
                else some (Char.ofNat 0xfffd, rest1)
              | none => some (Char.ofNat 0xfffd, rest1)
            else some (Char.ofNat rr, rest1)
        else none
    else if c.toNat = 0x22 ∨ c.toNat < 0x20 then none
    else some (c, cs)

/-- The body of a string literal up to its closing quote (Go's `unquote`); the
input starts after the opening quote. Returns the string and what follows. -/
def unquote : Nat → List Char → List Char → Option (String × List Char)
  | 0, _, _ => none
  | fuel + 1, cs, acc =>
    match cs with
    | [] => none
    | c :: rest =>
      if c.toNat = 0x22 then some (String.mk acc.reverse, rest)
      else
        match unquoteStep cs with
        | none => none
        | some (ch, rest1) => unquote fuel rest1 (ch :: acc)

/-- A run of decimal digits, accumulated into `a`. -/
def scanDigits : List Char → Nat → Nat × List Char
  | [], a => (a, [])
  | c :: cs, a => if isDigit c then scanDigits cs (a * 10 + (c.toNat - 0x30)) else (a, c :: cs)

/-- A non-empty run of digits, skipped. -/
def skipDigits1 : List Char → Option (List Char)
  | [] => none
  | c :: cs => if isDigit c then some (scanDigits cs 0).2 else none

/-- The values a field of `User` can tell apart: `null`, a string, a number
literal (sign, integer part, and whether it has neither fraction nor exponent),
and everything else (`true`, `false`, arrays, objects). -/
inductive JVal where
  | null
  | str (s : String)
  | num (neg : Bool) (mag : Nat) (integral : Bool)
  | other
deriving DecidableEq, Repr

/-- The part of a number literal after its sign: the integer part `0` or
`[1-9][0-9]*`, an optional fraction `. [0-9]+`, an optional exponent
`[eE] [+-]? [0-9]+`. -/
def scanMagnitude (neg : Bool) (cs : List Char) : Option (JVal × List Char) :=
  match cs with
  | [] => none
  | d :: r =>
    if isDigit d then
      let (mag, r1) := if d.toNat = 0x30 then (0, r) else scanDigits (d :: r) 0
      let frac : Option (Bool × List Char) :=
        match r1 with
        | [] => some (false, [])
        | p :: r2 =>
          if p.toNat = 0x2e then (skipDigits1 r2).map (fun r3 => (true, r3))
          else some (false, p :: r2)
      match frac with
      | none => none
      | some (hasFrac, r3) =>
        let exp : Option (Bool × List Char) :=
          match r3 with
          | [] => some (false, [])
          | e :: r4 =>
            if e.toNat = 0x65 ∨ e.toNat = 0x45 then
              let r5 :=
                match r4 with
                | [] => []
                | g :: r6 => if g.toNat = 0x2b ∨ g.toNat = 0x2d then r6 else g :: r6
              (skipDigits1 r5).map (fun r7 => (true, r7))
            else some (false, e :: r4)
        match exp with
        | none => none
        | some (hasExp, r7) => some (JVal.num neg mag (!hasFrac && !hasExp), r7)
    else none

/-- A JSON number literal: an optional `-`, then the magnitude. -/
def scanNumber (cs : List Char) : Option (JVal × List Char) :=
  match cs with
  | [] => none
  | c :: r => if c.toNat = 0x2d then scanMagnitude true r else scanMagnitude false (c :: r)

/-- Drops the literal `lit` from the front of the input. -/
def expect (lit : List Char) (cs : List Char) : Option (List Char) :=
  if lit.isPrefixOf cs then some (cs.drop lit.length) else none

/-- What the syntax checker is in the middle of. -/
inductive Mode where
  | value
  | elems
  | members
deriving DecidableEq, Repr

/-- Syntax check of one JSON value of any shape (`Mode.value`), of the rest of
an array after an element position (`Mode.elems`) or of the rest of an object
at a key position (`Mode.members`); returns what follows it. -/
def skip : Nat → Mode → List Char → Option (List Char)
  | 0, _, _ => none
  | fuel + 1, Mode.value, cs =>
    match cs with
    | [] => none
    | c :: r =>
      let n := c.toNat
      if n = 0x22 then (unquote fuel r []).map (fun p => p.2)
      else if n = 0x2d ∨ isDigit c then (scanNumber cs).map (fun p => p.2)
      else if n = 0x74 then expect "true".data cs
      else if n = 0x66 then expect "false".data cs
      else if n = 0x6e then expect "null".data cs
      else if n = 0x5b then
        match skipSpace r with
        | [] => none
        | d :: r1 => if d.toNat = 0x5d then some r1 else skip fuel Mode.elems (d :: r1)
      else if n = 0x7b then
        match skipSpace r with
        | [] => none
        | d :: r1 => if d.toNat = 0x7d then some r1 else skip fuel Mode.members (d :: r1)
      else none
  | fuel + 1, Mode.elems, cs =>
    match skip fuel Mode.value cs with
    | none => none
    | some r =>
      match skipSpace r with
      | [] => none
      | d :: r1 =>
        if d.toNat = 0x2c then skip fuel Mode.elems (skipSpace r1)
        else if d.toNat = 0x5d then some r1
        else none
  | fuel + 1, Mode.members, cs =>
    match cs with
    | [] => none
    | q :: r =>
      if q.toNat = 0x22 then
        match unquote fuel r [] with
        | none => none
        | some (_, r1) =>
          match skipSpace r1 with
          | [] => none
          | colon :: r2 =>
            if colon.toNat = 0x3a then
              match skip fuel Mode.value (skipSpace r2) with
              | none => none
              | some r3 =>
                match skipSpace r3 with
                | [] => none
                | d :: r4 =>
                  if d.toNat = 0x2c then skip fuel Mode.members (skipSpace r4)
                  else if d.toNat = 0x7d then some r4
                  else none
            else none
      else none

/-- One JSON value as a struct field sees it. -/
def parseValue (fuel : Nat) (cs : List Char) : Option (JVal × List Char) :=
  match cs with
  | [] => none
  | c :: r =>
    let n := c.toNat
    if n = 0x22 then (unquote fuel r []).map (fun p => (JVal.str p.1, p.2))
    else if n = 0x2d ∨ isDigit c then scanNumber cs
    else if n = 0x6e then (expect "null".data cs).map (fun r1 => (JVal.null, r1))
    else (skip fuel Mode.value cs).map (fun r1 => (JVal.other, r1))

/-- The members of an object, the input standing at the first key. -/
def parseMembers : Nat → List Char → Option (List (String × JVal) × List Char)
  | 0, _ => none
  | fuel + 1, cs =>
    match cs with
    | [] => none
    | q :: r =>
      if q.toNat = 0x22 then
        match unquote fuel r [] with
        | none => none
        | some (k, r1) =>
          match skipSpace r1 with
          | [] => none
          | colon :: r2 =>
            if colon.toNat = 0x3a then
              match parseValue fuel (skipSpace r2) with
              | none => none
              | some (v, r3) =>
                match skipSpace r3 with
                | [] => none
                | d :: r4 =>
                  if d.toNat = 0x2c then
                    (parseMembers fuel (skipSpace r4)).map (fun p => ((k, v) :: p.1, p.2))
                  else if d.toNat = 0x7d then some ([(k, v)], r4)
                  else none
            else none
      else none

/-- A top-level JSON value as a struct sees it: an object with its members in
order, or something else. -/
inductive JTop where
  | obj (members : List (String × JVal))
  | scalar (v : JVal)
deriving DecidableEq, Repr

/-- The first JSON value of the input, after leading whitespace. -/
def parseTop (fuel : Nat) (cs : List Char) : Option (JTop × List Char) :=
  match skipSpace cs with
  | [] => none
  | c :: r =>
    if c.toNat = 0x7b then
      match skipSpace r with
      | [] => none
      | d :: r1 =>
        if d.toNat = 0x7d then some (JTop.obj [], r1)
        else (parseMembers fuel (d :: r1)).map (fun p => (JTop.obj p.1, p.2))
    else (parseValue fuel (c :: r)).map (fun p => (JTop.scalar p.1, p.2))

/-- Case folding of an object key, as far as it matters for field names made
of the letters of `username` and `points`: ASCII upper case, the long s
(U+017F) and the Kelvin sign (U+212A). -/
def foldRune (c : Char) : Char :=
  let n := c.toNat
  if 0x41 ≤ n ∧ n ≤ 0x5a then Char.ofNat (n + 0x20)
  else if n = 0x17f then Char.ofNat 0x73
  else if n = 0x212a then Char.ofNat 0x6b
  else c

/-- Whether an object key names the struct field `name` (exactly, or up to case). -/
def keyMatches (name key : String) : Bool :=
  key = name ∨ key.data.map foldRune = name.data

/-- A number literal stored into a Go `int` (64 bits): it must be written as an
integer and fit; `none` is the type error. -/
def intOfNum (neg : Bool) (mag : Nat) (integral : Bool) : Option Int :=
  if integral then
    if neg then (if mag ≤ 2 ^ 63 then some (-(mag : Int)) else none)
    else (if mag < 2 ^ 63 then some (mag : Int) else none)
  else none

/-- The points a Go `int` can hold. -/
def inRange (p : Int) : Prop := -(2 : Int) ^ 63 ≤ p ∧ p < (2 : Int) ^ 63

instance (p : Int) : Decidable (inRange p) := by
  unfold inRange; infer_instance

/-- Stores one object member into a `User`. `null` leaves the field as it is, a
value of the wrong type is an error, an unknown key is ignored. -/
def storeUserField (u : User) (kv : String × JVal) : Option User :=
  if keyMatches "username" kv.1 then
    match kv.2 with
    | JVal.null => some u
    | JVal.str s => some { u with Username := s }
    | _ => none
  else if keyMatches "points" kv.1 then
    match kv.2 with
    | JVal.null => some u
    | JVal.num neg mag integral =>
      (intOfNum neg mag integral).map (fun p => { u with Points := p })
    | _ => none
  else some u

/-- Stores one object member into the `updateData` struct. -/
def storePointsField (d : UpdateData) (kv : String × JVal) : Option UpdateData :=
  if keyMatches "points" kv.1 then
    match kv.2 with
    | JVal.null => some d
    | JVal.num neg mag integral =>
      (intOfNum neg mag integral).map (fun p => { d with Points := p })
    | _ => none
  else some d

/-- Decoding a parsed value into the struct `init` with the field store
`store`: an object stores its members in order, `null` changes nothing, any
other value is a type error. -/
def decodeInto {α : Type} (store : α → String × JVal → Option α) (init : α) : JTop → Option α
  | JTop.obj ms => ms.foldlM store init
  | JTop.scalar JVal.null => some init
  | JTop.scalar _ => none

/-- Model of `json.Unmarshal([]byte(data), &user)` for a zero `user`: the whole
input must be one JSON value surrounded by whitespace. `none` is an error. -/
def Unmarshal (data : String) : Option User :=
  match parseTop (data.length + 1) data.data with
  | none => none
  | some (top, rest) =>
    if skipSpace rest = [] then decodeInto storeUserField ⟨"", 0⟩ top else none

/-- Model of gin's `c.ShouldBindJSON(&newUser)`: a `json.Decoder` reads the
first JSON value of the body (what follows it is not looked at) into the zero
struct; the struct has no `binding` tags, so nothing is validated. -/
def ShouldBindJSONUser (body : String) : Option User :=
  match parseTop (body.length + 1) body.data with
  | none => none
  | some (top, _) => decodeInto storeUserField ⟨"", 0⟩ top

/-- Model of `c.ShouldBindJSON(&updateData)` in `UpdatePoints`. -/
def ShouldBindJSONPoints (body : String) : Option UpdateData :=
  match parseTop (body.length + 1) body.data with
  | none => none
  | some (top, _) => decodeInto storePointsField ⟨0⟩ top

/-! ## The go-redis client -/

/-- The errors the handlers see: `redis.Nil` (the key is absent), a failure of
the connection to the store with its message, and a decoding error of
`encoding/json` (whose message text is not modelled). -/
inductive GoError where
  | redisNil
  | redisConn (msg : String)
  | json
deriving DecidableEq, Repr

/-- The commands the service sends to the store. -/
inductive Cmd where
  | keys (pattern : String)
  | get (key : String)
  | set (key value : String)
deriving DecidableEq, Repr

/-- The store as the client `rdb` sees it: the key/value pairs in the order the
store enumerates them, the outcome the connection has in stock for each of the
next commands (`some msg` is a communication failure, an exhausted list means
no failure), and the commands sent so far. -/
structure Rdb where
  data : List (String × String)
  faults : List (Option String)
  log : List Cmd
deriving DecidableEq, Repr

/-- Glob matching of a key against a pattern: `*` matches any run of
characters, `?` any one character, anything else itself (the character classes
and escapes of Redis patterns are left out; `user:*` has neither). -/
def globMatch : List Char → List Char → Bool
  | [], s => s.isEmpty
  | p :: ps, s =>
    if p.toNat = 0x2a then s.tails.any (globMatch ps)
    else
      match s with
      | [] => false
      | c :: cs => (p.toNat = 0x3f || p = c) && globMatch ps cs

/-- The value stored under a key. -/
def lookup (key : String) : List (String × String) → Option String
  | [] => none
  | (k, v) :: rest => if k = key then some v else lookup key rest

/-- Writing a value under a key: an existing key keeps its place, a new one is
enumerated last. -/
def upsert (key value : String) : List (String × String) → List (String × String)
  | [] => [(key, value)]
  | (k, v) :: rest => if k = key then (key, value) :: rest else (k, v) :: upsert key value rest

/-- Sending a command: it is logged and takes the next outcome in stock. -/
def Rdb.send (rdb : Rdb) (c : Cmd) : Option String × Rdb :=
  match rdb.faults with
  | [] => (none, { rdb with log := rdb.log ++ [c] })
  | f :: fs => (f, { rdb with faults := fs, log := rdb.log ++ [c] })

/-- Model of `rdb.Keys(ctx, pattern).Result()`. -/
def Rdb.Keys (rdb : Rdb) (pattern : String) : Except GoError (List String) × Rdb :=
  match rdb.send (Cmd.keys pattern) with
  | (some msg, rdb1) => (.error (GoError.redisConn msg), rdb1)
  | (none, rdb1) =>
    (.ok ((rdb1.data.map Prod.fst).filter (fun k => globMatch pattern.data k.data)), rdb1)

/-- Model of `rdb.Get(ctx, key).Result()`: an absent key is the error `redis.Nil`. -/
def Rdb.Get (rdb : Rdb) (key : String) : Except GoError String × Rdb :=
  match rdb.send (Cmd.get key) with
  | (some msg, rdb1) => (.error (GoError.redisConn msg), rdb1)
  | (none, rdb1) =>
    match lookup key rdb1.data with
    | none => (.error GoError.redisNil, rdb1)
    | some v => (.ok v, rdb1)

/-- Model of `rdb.Set(ctx, key, value, 0).Err()`: no expiration; a command that
fails leaves the data as it was. -/
def Rdb.Set (rdb : Rdb) (key value : String) : Except GoError Unit × Rdb :=
  match rdb.send (Cmd.set key value) with
  | (some msg, rdb1) => (.error (GoError.redisConn msg), rdb1)
  | (none, rdb1) => (.ok (), { rdb1 with data := upsert key value rdb1.data })

/-! ## gin responses -/

/-- A value of a `gin.H` map: a string, or the text `err.Error()` of an error. -/
inductive HVal where
  | str (s : String)
  | details (e : GoError)
deriving DecidableEq, Repr

/-- What a handler hands to `c.JSON`: a `gin.H` map, a user, or the slice of users. -/
inductive Payload where
  | h (fields : List (String × HVal))
  | user (u : User)
  | users (us : Slice User)
deriving DecidableEq, Repr

/-- The response written by `c.JSON(code, obj)`. -/
structure Response where
  status : Nat
  body : Payload
deriving DecidableEq, Repr

def StatusOK : Nat := 200
def StatusBadRequest : Nat := 400
def StatusNotFound : Nat := 404
def StatusInternalServerError : Nat := 500

/-- The JSON text `c.JSON` writes for the slice of users (`json.Marshal`): the
nil slice is written `null`, any other slice as an array. -/
def renderUsers : Slice User → String
  | none => "null"
  | some us =>
    String.mk ("[".data ++ ",".data.intercalate (us.map marshalUser) ++ "]".data)

/-! ## The handlers of `main.go` -/

/-- The loop of `GetAllUsers` over the enumerated keys. -/
def GetAllUsers.loop : List String → Slice User → Rdb → Response × Rdb
  | [], users, rdb => (⟨StatusOK, Payload.users users⟩, rdb)
  | key :: keys, users, rdb =>
    match rdb.Get key with
    | (.error err, rdb1) =>
      (⟨StatusInternalServerError,
        Payload.h [("error", HVal.str "Failed to fetch user data from Redis"),
          ("key", HVal.str key), ("details", HVal.details err)]⟩, rdb1)
    | (.ok userData, rdb1) =>
      match Unmarshal userData with
      | none =>
        (⟨StatusInternalServerError,
          Payload.h [("error", HVal.str "Failed to unmarshal user data"),
            ("key", HVal.str key), ("details", HVal.details GoError.json)]⟩, rdb1)
      | some user => GetAllUsers.loop keys (Slice.append users user) rdb1

/-- `GetAllUsers`: every user of the store. -/
def GetAllUsers (rdb : Rdb) : Response × Rdb :=
  match rdb.Keys "user:*" with
  | (.error err, rdb1) =>
    (⟨StatusInternalServerError,
      Payload.h [("error", HVal.str "Failed to fetch user keys from Redis"),
        ("details", HVal.details err)]⟩, rdb1)
  | (.ok keys, rdb1) => GetAllUsers.loop keys none rdb1

/-- `GetUserByName`: the user of the path parameter `username`. -/
def GetUserByName (username : String) (rdb : Rdb) : Response × Rdb :=
  match rdb.Get ("user:" ++ username) with
  | (.error _, rdb1) =>
    (⟨StatusNotFound, Payload.h [("error", HVal.str "User not found")]⟩, rdb1)
  | (.ok userData, rdb1) =>
    match Unmarshal userData with
    | none =>
      (⟨StatusInternalServerError, Payload.h [("error", HVal.str "Internal Server Error")]⟩, rdb1)
    | some user => (⟨StatusOK, Payload.user user⟩, rdb1)

/-- `PutUser`: creates the user of the request body. -/
def PutUser (body : String) (rdb : Rdb) : Response × Rdb :=
  match ShouldBindJSONUser body with
  | none => (⟨StatusBadRequest, Payload.h [("error", HVal.str "Invalid JSON")]⟩, rdb)
  | some newUser =>
    match rdb.Get ("user:" ++ newUser.Username) with
    | (.ok _, rdb1) =>
      (⟨StatusBadRequest, Payload.h [("error", HVal.str "User already exists")]⟩, rdb1)
    | (.error _, rdb1) =>
      match Marshal newUser with
      | .error _ =>
        (⟨StatusInternalServerError, Payload.h [("error", HVal.str "Internal Server Error")]⟩,
          rdb1)
      | .ok userJSON =>
        match rdb1.Set ("user:" ++ newUser.Username) userJSON with
        | (.error _, rdb2) =>
          (⟨StatusInternalServerError, Payload.h [("error", HVal.str "Internal Server Error")]⟩,
            rdb2)
        | (.ok _, rdb2) => (⟨StatusOK, Payload.user newUser⟩, rdb2)

/-- `UpdatePoints`: sets the points of the user of the path parameter `username`. -/
def UpdatePoints (username body : String) (rdb : Rdb) : Response × Rdb :=
  match ShouldBindJSONPoints body with
  | none => (⟨StatusBadRequest, Payload.h [("error", HVal.str "Invalid JSON")]⟩, rdb)
  | some updateData =>
    match rdb.Get ("user:" ++ username) with
    | (.error _, rdb1) =>
      (⟨StatusNotFound, Payload.h [("error", HVal.str "User not found")]⟩, rdb1)
    | (.ok userData, rdb1) =>
      match Unmarshal userData with
      | none =>
        (⟨StatusInternalServerError, Payload.h [("error", HVal.str "Internal Server Error")]⟩,
          rdb1)
      | some user =>
        let currentUser : User := { user with Points := updateData.Points }
        match Marshal currentUser with
        | .error _ =>
          (⟨StatusInternalServerError, Payload.h [("error", HVal.str "Internal Server Error")]⟩,
            rdb1)
        | .ok userJSON =>
          match rdb1.Set ("user:" ++ currentUser.Username) userJSON with
          | (.error _, rdb2) =>
            (⟨StatusInternalServerError,
              Payload.h [("error", HVal.str "Internal Server Error")]⟩, rdb2)
          | (.ok _, rdb2) => (⟨StatusOK, Payload.user currentUser⟩, rdb2)

/-- A request to one of the four user routes of `main`. -/
inductive Request where
  | getAllUsers
  | getUserByName (username : String)
  | putUser (body : String)
  | updatePoints (username body : String)
deriving DecidableEq, Repr

/-- The router: each request runs its handler. -/
def handle : Request → Rdb → Response × Rdb
  | Request.getAllUsers, rdb => GetAllUsers rdb
  | Request.getUserByName username, rdb => GetUserByName username rdb
  | Request.putUser body, rdb => PutUser body rdb
  | Request.updatePoints username body, rdb => UpdatePoints username body rdb

/-- The store states the service can bring about: starting from no data, any
number of requests, the connection failing where it will. -/
inductive Reachable : Rdb → Prop where
  | empty (faults : List (Option String)) (log : List Cmd) : Reachable ⟨[], faults, log⟩
  | step (req : Request) (rdb : Rdb) (faults : List (Option String)) :
      Reachable rdb → Reachable (handle req { rdb with faults := faults }).2

/-! ## Notions the properties are stated with -/

/-- The commands a handler run sent: what it added to the log. -/
def issued (run : Rdb → Response × Rdb) (rdb : Rdb) : List Cmd :=
  (run rdb).2.log.drop rdb.log.length

/-- A run treats the failing store commands from its `first`-th on as fatal:
whenever such a command it sent failed, it answered 500 and that command was
the last one it sent. -/
def FailStop (first : Nat) (run : Rdb → Response × Rdb) (rdb : Rdb) : Prop :=
  ∀ i msg, first ≤ i → i < (issued run rdb).length → rdb.faults.get? i = some (some msg) →
    (run rdb).1.status = StatusInternalServerError ∧ (issued run rdb).length = i + 1

/-- Key/username consistency: every value stored under a key `user:<u>` decodes
to a user whose username is `u`. -/
def KeyConsistent (data : List (String × String)) : Prop :=
  ∀ u v, lookup ("user:" ++ u) data = some v →
    ∃ usr, Unmarshal v = some usr ∧ usr.Username = u

/-- No key of the store matches `user:*`. -/
def NoUserKeys (data : List (String × String)) : Prop :=
  ∀ kv ∈ data, globMatch "user:*".data kv.1.data = false

instance (data : List (String × String)) : Decidable (NoUserKeys data) := by
  unfold NoUserKeys; infer_instance

/-- A sequence of `PutUser` calls, one per body, with their responses in order. -/
def createAll : List String → Rdb → List Response × Rdb
  | [], rdb => ([], rdb)
  | body :: bodies, rdb =>
    let r := PutUser body rdb
    let rs := createAll bodies r.2
    (r.1 :: rs.1, rs.2)

/-! ## Proofs: `encoding/json` reads back what it writes -/

theorem char_eq_of_toNat {c : Char} {k : Nat} (h : c.toNat = k) : c = Char.ofNat k := by
  rw [← h, Char.ofNat_toNat]

theorem unquoteStep_escapeChar (c : Char) (tail : List Char) :
    unquoteStep (escapeChar c ++ tail) = some (c, tail) := by
  unfold escapeChar
  simp only
  split_ifs with h1 h2 h3 h4 h5 h6 h7 h8
  · rcases h1 with h | h <;>
    · have hc := char_eq_of_toNat h
      subst hc
      rfl
  · have := char_eq_of_toNat h2; subst this; rfl
  · have := char_eq_of_toNat h3; subst this; rfl
  · have := char_eq_of_toNat h4; subst this; rfl
  · have := char_eq_of_toNat h5; subst this; rfl
  · have := char_eq_of_toNat h6; subst this; rfl
  · have hlt : c.toNat < 64 := by omega
    generalize hn : c.toNat = n at *
    have := char_eq_of_toNat hn
    subst this
    interval_cases n <;> rfl
  · rcases h8 with h | h <;>
    · have hc := char_eq_of_toNat h
      subst hc
      rfl
  · have a1 : c.toNat ≠ 0x5c := by omega
    have a2 : ¬ (c.toNat = 0x22 ∨ c.toNat < 0x20) := by omega
    simp [unquoteStep, a1, a2]

theorem escapeChar_head (c : Char) (tail : List Char) :
    ∃ d t, escapeChar c ++ tail = d :: t ∧ d.toNat ≠ 0x22 := by
  unfold escapeChar
  simp only
  split_ifs with h1 h2 h3 h4 h5 h6 h7 h8
  all_goals first
    | exact ⟨_, _, rfl, by decide⟩
    | exact ⟨_, _, rfl, by omega⟩

theorem unquote_escape (s : List Char) :
    ∀ (fuel : Nat) (acc tail : List Char), s.length < fuel →
      unquote fuel (escape s ++ Char.ofNat 0x22 :: tail) acc
        = some (String.mk (acc.reverse ++ s), tail) := by
  induction s with
  | nil =>
    intro fuel acc tail hf
    obtain ⟨f, rfl⟩ : ∃ f, fuel = f + 1 := ⟨fuel - 1, by simp at hf; omega⟩
    simp [escape, unquote]
  | cons c cs ih =>
    intro fuel acc tail hf
    obtain ⟨f, rfl⟩ : ∃ f, fuel = f + 1 := ⟨fuel - 1, by simp at hf; omega⟩
    obtain ⟨d, t, hd, hq⟩ := escapeChar_head c (escape cs ++ Char.ofNat 0x22 :: tail)
    have hstep := unquoteStep_escapeChar c (escape cs ++ Char.ofNat 0x22 :: tail)
    simp only [escape, List.append_assoc]
    rw [hd] at hstep ⊢
    simp only [unquote, hq, if_false, hstep]
    rw [ih f (c :: acc) tail (by simp at hf; omega)]
    simp

theorem digitChar_toNat (k : Nat) (h : k < 10) : (Char.ofNat (0x30 + k)).toNat = 0x30 + k := by
  interval_cases k <;> rfl

theorem scanDigits_digit (k : Nat) (h : k < 10) (rest : List Char) (a : Nat) :
    scanDigits (Char.ofNat (0x30 + k) :: rest) a = scanDigits rest (a * 10 + k) := by
  have := digitChar_toNat k h
  simp [scanDigits, isDigit, this]
  omega

/-- The digits `fmtDigits` writes: they stand in front of `acc`, scan back to
`n`, and start with a non-zero digit unless `n = 0`. -/
theorem fmtDigits_spec : ∀ (fuel n : Nat) (acc : List Char), n < fuel →
    ∃ d ds, fmtDigits fuel n acc = (d :: ds) ++ acc ∧
      (∀ a rest, scanDigits ((d :: ds) ++ rest) a
        = scanDigits rest (a * 10 ^ (d :: ds).length + n)) ∧
      isDigit d = true ∧ (n ≠ 0 → d.toNat ≠ 0x30) ∧ (n = 0 → ds = []) := by
  intro fuel
  induction fuel with
  | zero => intro n acc h; omega
  | succ f ih =>
    intro n acc h
    by_cases h10 : n < 10
    · refine ⟨Char.ofNat (0x30 + n % 10), [], ?_, ?_, ?_, ?_, ?_⟩
      · simp [fmtDigits, h10]
      · intro a rest
        have hm : n % 10 = n := Nat.mod_eq_of_lt h10
        rw [hm]
        simpa using scanDigits_digit n h10 rest a
      · have := digitChar_toNat (n % 10) (Nat.mod_lt _ (by decide))
        simp [isDigit, this]; omega
      · intro hn
        have := digitChar_toNat (n % 10) (Nat.mod_lt _ (by decide))
        rw [this]; omega
      · intro _; rfl
    · obtain ⟨d, ds, he, hs, hd, hz, _⟩ :=
        ih (n / 10) (Char.ofNat (0x30 + n % 10) :: acc) (by omega)
      refine ⟨d, ds ++ [Char.ofNat (0x30 + n % 10)], ?_, ?_, hd, ?_, ?_⟩
      · simp [fmtDigits, h10, he]
      · intro a rest
        have := hs a (Char.ofNat (0x30 + n % 10) :: rest)
        simp only [List.cons_append, List.append_assoc, List.singleton_append, List.nil_append] at this ⊢
        rw [this, scanDigits_digit _ (Nat.mod_lt _ (by decide))]
        congr 1
        simp only [List.length_cons, List.length_append, List.length_singleton, List.length_nil]
        have hdm := Nat.div_add_mod n 10
        rw [pow_succ (10 : Nat) (ds.length + 0 + 1), ← Nat.mul_assoc]
        generalize a * 10 ^ (ds.length + 0 + 1) = x
        omega
      · intro _; exact hz (by omega)
      · intro hn; omega

theorem scanMagnitude_fmtNat (neg : Bool) (n : Nat) (rest : List Char) :
    scanMagnitude neg (fmtNat n ++ Char.ofNat 0x7d :: rest)
      = some (JVal.num neg n true, Char.ofNat 0x7d :: rest) := by
  obtain ⟨d, ds, he, hs, hd, hz, h0⟩ := fmtDigits_spec (n + 1) n [] (by omega)
  have hfmt : fmtNat n = d :: ds := by simpa [fmtNat] using he
  have hbrace : isDigit (Char.ofNat 0x7d) = false := by decide
  have hscan : scanDigits (d :: ds ++ Char.ofNat 0x7d :: rest) 0 = (n, Char.ofNat 0x7d :: rest) := by
    rw [hs 0 (Char.ofNat 0x7d :: rest)]
    simp [scanDigits, hbrace]
  rw [hfmt]
  by_cases hzero : d.toNat = 0x30
  · have hn : n = 0 := by
      by_contra hne
      exact hz hne hzero
    have hds := h0 hn
    subst hn
    subst hds
    simp [scanMagnitude, hd, hzero]
  · simp only [List.cons_append] at hscan ⊢
    simp [scanMagnitude, hd, hzero, hscan]

theorem fmtNat_head (n : Nat) : ∃ d ds, fmtNat n = d :: ds ∧ isDigit d = true := by
  obtain ⟨d, ds, he, _, hd, _, _⟩ := fmtDigits_spec (n + 1) n [] (by omega)
  exact ⟨d, ds, by simpa [fmtNat] using he, hd⟩

theorem scanNumber_fmtInt (p : Int) (rest : List Char) :
    scanNumber (fmtInt p ++ Char.ofNat 0x7d :: rest)
      = some (JVal.num (decide (p < 0)) p.natAbs true, Char.ofNat 0x7d :: rest) := by
  cases p with
  | ofNat n =>
    obtain ⟨d, ds, hf, hd⟩ := fmtNat_head n
    have hm := scanMagnitude_fmtNat false n rest
    have hneg : d.toNat ≠ 0x2d := by
      simp [isDigit] at hd; omega
    simp only [fmtInt]
    rw [hf] at hm ⊢
    simp only [List.cons_append] at hm ⊢
    simp [scanNumber, hneg, hm]
  | negSucc n =>
    have hm := scanMagnitude_fmtNat true (n + 1) rest
    have h2d : (Char.ofNat 0x2d).toNat = 0x2d := by decide
    simp only [fmtInt, List.cons_append]
    simp [scanNumber, h2d, hm]
    exact Int.negSucc_lt_zero n

theorem marshalUser_eq (u : User) :
    marshalUser u = Char.ofNat 0x7b :: Char.ofNat 0x22 :: (escape "username".data ++
      Char.ofNat 0x22 :: Char.ofNat 0x3a :: Char.ofNat 0x22 :: (escape u.Username.data ++
      Char.ofNat 0x22 :: Char.ofNat 0x2c :: Char.ofNat 0x22 :: (escape "points".data ++
      Char.ofNat 0x22 :: Char.ofNat 0x3a :: (fmtInt u.Points ++ Char.ofNat 0x7d :: [])))) := by
  simp [marshalUser, quoteString]
  rfl

theorem skipSpace_cons {c : Char} (h : isSpace c = false) (cs : List Char) :
    skipSpace (c :: cs) = c :: cs := by
  simp [skipSpace, h]

theorem fmtInt_head (p : Int) :
    ∃ d ds, fmtInt p = d :: ds ∧ (d.toNat = 0x2d ∨ isDigit d = true) := by
  cases p with
  | ofNat n =>
    obtain ⟨d, ds, hf, hd⟩ := fmtNat_head n
    exact ⟨d, ds, by simpa [fmtInt] using hf, Or.inr hd⟩
  | negSucc n => exact ⟨_, _, rfl, Or.inl (by decide)⟩

theorem parseValue_fmtInt (fuel : Nat) (p : Int) (rest : List Char) :
    parseValue fuel (fmtInt p ++ Char.ofNat 0x7d :: rest)
      = some (JVal.num (decide (p < 0)) p.natAbs true, Char.ofNat 0x7d :: rest) := by
  have hn := scanNumber_fmtInt p rest
  obtain ⟨d, ds, hf, hd⟩ := fmtInt_head p
  rw [hf] at hn ⊢
  have h22 : d.toNat ≠ 0x22 := by
    rcases hd with h | h
    · omega
    · simp [isDigit] at h; omega
  have hor : (d.toNat = 0x2d ∨ isDigit d = true) := hd
  simp only [List.cons_append] at hn ⊢
  simp only [parseValue, h22, if_false, hor, if_true, hn]

theorem parseValue_quoted (fuel : Nat) (s rest : List Char) (h : s.length < fuel) :
    parseValue fuel (Char.ofNat 0x22 :: (escape s ++ Char.ofNat 0x22 :: rest))
      = some (JVal.str (String.mk s), rest) := by
  have h22 : (Char.ofNat 0x22).toNat = 0x22 := by decide
  simp only [parseValue, h22, if_true, unquote_escape s fuel [] rest h]
  simp

/-- The member `"points":N` that closes the object `Marshal` writes. -/
theorem parseMembers_points (fuel : Nat) (p : Int) (rest : List Char) (h : 6 < fuel) :
    parseMembers (fuel + 1) (Char.ofNat 0x22 :: (escape "points".data ++
        Char.ofNat 0x22 :: Char.ofNat 0x3a :: (fmtInt p ++ Char.ofNat 0x7d :: rest)))
      = some ([("points", JVal.num (decide (p < 0)) p.natAbs true)], rest) := by
  have h22 : (Char.ofNat 0x22).toNat = 0x22 := by decide
  have hk := unquote_escape "points".data fuel []
    (Char.ofNat 0x3a :: (fmtInt p ++ Char.ofNat 0x7d :: rest)) (by simpa using h)
  obtain ⟨d, ds, hf, hd⟩ := fmtInt_head p
  have hsp : isSpace d = false := by
    rcases hd with h | h
    · simp [isSpace]; omega
    · simp [isDigit] at h; simp [isSpace]; omega
  have hv := parseValue_fmtInt fuel p rest
  rw [hf] at hv
  simp only [List.cons_append] at hv
  simp only [parseMembers, h22, if_true, hk]
  rw [skipSpace_cons (by decide)]
  simp only [show (Char.ofNat 0x3a).toNat = 0x3a by decide, if_true, hf, List.cons_append]
  rw [skipSpace_cons hsp, hv]
  simp only []
  rw [skipSpace_cons (by decide)]
  simp only [show (Char.ofNat 0x7d).toNat ≠ 0x2c by decide, if_false,
    show (Char.ofNat 0x7d).toNat = 0x7d by decide, if_true]
  rfl

theorem escape_length (s : List Char) : s.length ≤ (escape s).length := by
  induction s with
  | nil => simp [escape]
  | cons c cs ih =>
    obtain ⟨d, t, hd, _⟩ := escapeChar_head c []
    have : 1 ≤ (escapeChar c).length := by
      simp at hd
      simp [hd]
    simp [escape]
    omega

/-- The two members of the object `Marshal` writes. -/
theorem parseMembers_marshalUser (u : User) (f : Nat) (h : u.Username.length + 9 < f) :
    parseMembers (f + 1) (Char.ofNat 0x22 :: (escape "username".data ++
      Char.ofNat 0x22 :: Char.ofNat 0x3a :: Char.ofNat 0x22 :: (escape u.Username.data ++
      Char.ofNat 0x22 :: Char.ofNat 0x2c :: Char.ofNat 0x22 :: (escape "points".data ++
      Char.ofNat 0x22 :: Char.ofNat 0x3a :: (fmtInt u.Points ++ Char.ofNat 0x7d :: [])))))
      = some ([("username", JVal.str u.Username),
          ("points", JVal.num (decide (u.Points < 0)) u.Points.natAbs true)], []) := by
  have h22 : (Char.ofNat 0x22).toNat = 0x22 := by decide
  have hlen : u.Username.data.length = u.Username.length := rfl
  simp only [parseMembers, h22, if_true]
  rw [unquote_escape "username".data f [] _ (by simp; omega)]
  simp only []
  rw [skipSpace_cons (by decide)]
  simp only [show (Char.ofNat 0x3a).toNat = 0x3a by decide, if_true]
  rw [skipSpace_cons (by decide), parseValue_quoted f u.Username.data _ (by omega)]
  simp only []
  rw [skipSpace_cons (by decide)]
  simp only [show (Char.ofNat 0x2c).toNat = 0x2c by decide, if_true]
  obtain ⟨g, rfl⟩ : ∃ g, f = g + 1 := ⟨f - 1, by omega⟩
  rw [skipSpace_cons (by decide), parseMembers_points g u.Points [] (by omega)]
  rfl

/-- What the parser reads in the text `Marshal` writes. -/
theorem parseTop_marshalUser (u : User) (f : Nat) (h : u.Username.length + 9 < f) :
    parseTop (f + 1) (marshalUser u)
      = some (JTop.obj [("username", JVal.str u.Username),
          ("points", JVal.num (decide (u.Points < 0)) u.Points.natAbs true)], []) := by
  rw [marshalUser_eq]
  simp only [parseTop]
  rw [skipSpace_cons (by decide)]
  simp only [show (Char.ofNat 0x7b).toNat = 0x7b by decide, if_true]
  rw [skipSpace_cons (by decide)]
  simp only [show (Char.ofNat 0x22).toNat ≠ 0x7d by decide, if_false]
  rw [parseMembers_marshalUser u f h]
  rfl

theorem intOfNum_natAbs (p : Int) (h : inRange p) :
    intOfNum (decide (p < 0)) p.natAbs true = some p := by
  unfold inRange at h
  by_cases hneg : p < 0
  · have h1 : p.natAbs ≤ 2 ^ 63 := by omega
    have h2 : -(p.natAbs : Int) = p := by omega
    simp only [intOfNum, hneg, decide_True, if_true, h1, h2]
  · have h1 : p.natAbs < 2 ^ 63 := by omega
    have h2 : (p.natAbs : Int) = p := by omega
    simp only [intOfNum, hneg, decide_False, if_true, Bool.false_eq_true, if_false, h1, h2]

/-- Reading back what `Marshal` wrote gives the same user. -/
theorem Unmarshal_marshalUser (u : User) (h : inRange u.Points) :
    Unmarshal (String.mk (marshalUser u)) = some u := by
  have hlen : (String.mk (marshalUser u)).length = (marshalUser u).length := rfl
  have hbig : u.Username.length + 11 ≤ (marshalUser u).length := by
    rw [marshalUser_eq]
    have := escape_length u.Username.data
    have hl : u.Username.data.length = u.Username.length := rfl
    simp only [List.length_cons, List.length_append]
    omega
  obtain ⟨f, hf⟩ : ∃ f, (marshalUser u).length + 1 = f + 1 ∧ u.Username.length + 9 < f :=
    ⟨(marshalUser u).length, by omega, by omega⟩
  simp only [Unmarshal, hlen, hf.1, parseTop_marshalUser u f hf.2]
  simp [skipSpace, decodeInto, List.foldlM, storeUserField, keyMatches, intOfNum_natAbs _ h]

/-! ### The decoder only produces points a Go `int` holds -/

theorem intOfNum_inRange {neg : Bool} {mag : Nat} {integral : Bool} {p : Int}
    (h : intOfNum neg mag integral = some p) : inRange p := by
  unfold intOfNum at h
  unfold inRange
  split_ifs at h with h1 h2 h3 h4 <;> simp at h <;> omega

theorem storeUserField_inRange {u u1 : User} {kv : String × JVal}
    (h : storeUserField u kv = some u1) (hu : inRange u.Points) : inRange u1.Points := by
  unfold storeUserField at h
  split_ifs at h with h1 h2
  · split at h <;> simp at h <;> subst h <;> exact hu
  · split at h
    · simp at h; subst h; exact hu
    · next neg mag integral _ =>
      cases hi : intOfNum neg mag integral with
      | none => simp [hi] at h
      | some p =>
        simp [hi] at h
        subst h
        exact intOfNum_inRange hi
    · simp at h
  · simp at h; subst h; exact hu

theorem storePointsField_inRange {d d1 : UpdateData} {kv : String × JVal}
    (h : storePointsField d kv = some d1) (hd : inRange d.Points) : inRange d1.Points := by
  unfold storePointsField at h
  split_ifs at h with h1
  · split at h
    · simp at h; subst h; exact hd
    · next neg mag integral _ =>
      cases hi : intOfNum neg mag integral with
      | none => simp [hi] at h
      | some p =>
        simp [hi] at h
        subst h
        exact intOfNum_inRange hi
    · simp at h
  · simp at h; subst h; exact hd

theorem foldlM_invariant {α β : Type} (P : α → Prop) (f : α → β → Option α)
    (hf : ∀ a b a1, f a b = some a1 → P a → P a1) :
    ∀ (l : List β) (a a1 : α), l.foldlM f a = some a1 → P a → P a1 := by
  intro l
  induction l with
  | nil =>
    intro a a1 h hp
    simp [List.foldlM] at h
    subst h; exact hp
  | cons b bs ih =>
    intro a a1 h hp
    simp only [List.foldlM_cons] at h
    cases hb : f a b with
    | none => simp [hb] at h
    | some a2 =>
      simp [hb] at h
      exact ih a2 a1 h (hf a b a2 hb hp)

theorem decodeInto_invariant {α : Type} (P : α → Prop) (f : α → String × JVal → Option α)
    (hf : ∀ a b a1, f a b = some a1 → P a → P a1) (init a1 : α) (top : JTop)
    (h : decodeInto f init top = some a1) (hp : P init) : P a1 := by
  cases top with
  | obj ms => exact foldlM_invariant P f hf ms init a1 h hp
  | scalar v =>
    cases v <;> simp [decodeInto] at h
    subst h; exact hp

theorem zero_inRange : inRange 0 := by decide

theorem ShouldBindJSONUser_inRange {body : String} {u : User}
    (h : ShouldBindJSONUser body = some u) : inRange u.Points := by
  unfold ShouldBindJSONUser at h
  split at h
  · simp at h
  · exact decodeInto_invariant (fun u => inRange u.Points) storeUserField
      (fun a b a1 hs hp => storeUserField_inRange hs hp) _ _ _ h zero_inRange

theorem ShouldBindJSONPoints_inRange {body : String} {d : UpdateData}
    (h : ShouldBindJSONPoints body = some d) : inRange d.Points := by
  unfold ShouldBindJSONPoints at h
  split at h
  · simp at h
  · exact decodeInto_invariant (fun d => inRange d.Points) storePointsField
      (fun a b a1 hs hp => storePointsField_inRange hs hp) _ _ _ h zero_inRange

/-! ### The store -/

theorem lookup_upsert_same (key value : String) (data : List (String × String)) :
    lookup key (upsert key value data) = some value := by
  induction data with
  | nil => simp [upsert, lookup]
  | cons kv rest ih =>
    obtain ⟨k, v⟩ := kv
    by_cases h : k = key
    · simp [upsert, lookup, h]
    · simp [upsert, lookup, h, ih]

theorem lookup_upsert_other {key key1 : String} (value : String) (data : List (String × String))
    (h : key1 ≠ key) : lookup key1 (upsert key value data) = lookup key1 data := by
  induction data with
  | nil =>
    have : ¬ key = key1 := fun e => h e.symm
    simp [upsert, lookup, this]
  | cons kv rest ih =>
    obtain ⟨k, v⟩ := kv
    by_cases hk : k = key
    · subst hk
      have : ¬ k = key1 := fun e => h e.symm
      simp [upsert, lookup, this]
    · by_cases hk1 : k = key1
      · subst hk1
        simp [upsert, lookup, hk]
      · simp [upsert, lookup, hk, hk1, ih]

theorem upsert_absent {key : String} (value : String) {data : List (String × String)}
    (h : lookup key data = none) : upsert key value data = data ++ [(key, value)] := by
  induction data with
  | nil => simp [upsert]
  | cons kv rest ih =>
    obtain ⟨k, v⟩ := kv
    by_cases hk : k = key
    · simp [lookup, hk] at h
    · simp [lookup, hk] at h
      simp [upsert, hk, ih h]

theorem userKey_injective {a b : String} (h : "user:" ++ a = "user:" ++ b) : a = b := by
  have := congrArg String.data h
  simp only [String.data_append] at this
  exact String.ext (List.append_cancel_left this)

theorem globMatch_userKey (u : String) : globMatch "user:*".data ("user:" ++ u).data = true := by
  simp only [String.data_append]
  show globMatch ['u', 's', 'e', 'r', ':', '*'] ('u' :: 's' :: 'e' :: 'r' :: ':' :: u.data) = true
  simp [globMatch]

/-! ### Commands on a connection that does not fail -/

theorem Get_healthy (data : List (String × String)) (log : List Cmd) (key : String) :
    (⟨data, [], log⟩ : Rdb).Get key =
      ((match lookup key data with
        | none => Except.error GoError.redisNil
        | some v => Except.ok v), ⟨data, [], log ++ [Cmd.get key]⟩) := by
  unfold Rdb.Get Rdb.send
  simp only
  cases hl : lookup key data <;> simp

theorem Set_healthy (data : List (String × String)) (log : List Cmd) (key value : String) :
    (⟨data, [], log⟩ : Rdb).Set key value =
      (Except.ok (), ⟨upsert key value data, [], log ++ [Cmd.set key value]⟩) := by
  unfold Rdb.Set Rdb.send
  rfl

/-- What `PutUser` does for a new username on a healthy connection. -/
theorem PutUser_new (data : List (String × String)) (log : List Cmd) (body : String)
    (newUser : User) (hbody : ShouldBindJSONUser body = some newUser)
    (habsent : lookup ("user:" ++ newUser.Username) data = none) :
    PutUser body ⟨data, [], log⟩ = (⟨StatusOK, Payload.user newUser⟩,
      ⟨data ++ [("user:" ++ newUser.Username, String.mk (marshalUser newUser))], [],
        log ++ [Cmd.get ("user:" ++ newUser.Username),
          Cmd.set ("user:" ++ newUser.Username) (String.mk (marshalUser newUser))]⟩) := by
  unfold PutUser
  rw [hbody]
  simp only [Get_healthy, habsent, Marshal, Set_healthy]
  simp [upsert_absent _ habsent]

/-- What `GetUserByName` answers on a healthy connection when the key holds a
value that decodes. -/
theorem GetUserByName_found (data : List (String × String)) (log : List Cmd)
    (username v : String) (user : User)
    (hv : lookup ("user:" ++ username) data = some v) (hdec : Unmarshal v = some user) :
    GetUserByName username ⟨data, [], log⟩ = (⟨StatusOK, Payload.user user⟩,
      ⟨data, [], log ++ [Cmd.get ("user:" ++ username)]⟩) := by
  unfold GetUserByName
  simp only [Get_healthy, hv, hdec]

/-- What `UpdatePoints` does on a healthy connection when the key holds a
value that decodes: the record with the new points goes under the key of the
stored username. -/
theorem UpdatePoints_found (data : List (String × String)) (log : List Cmd)
    (username body v : String) (d : UpdateData) (user : User)
    (hbody : ShouldBindJSONPoints body = some d)
    (hv : lookup ("user:" ++ username) data = some v) (hdec : Unmarshal v = some user) :
    UpdatePoints username body ⟨data, [], log⟩ =
      (⟨StatusOK, Payload.user ⟨user.Username, d.Points⟩⟩,
        ⟨upsert ("user:" ++ user.Username) (String.mk (marshalUser ⟨user.Username, d.Points⟩)) data,
          [], log ++ [Cmd.get ("user:" ++ username),
            Cmd.set ("user:" ++ user.Username)
              (String.mk (marshalUser ⟨user.Username, d.Points⟩))]⟩) := by
  unfold UpdatePoints
  rw [hbody]
  simp only [Get_healthy, hv, hdec, Marshal, Set_healthy]
  simp

/-- A `Get` of an absent key fails whatever the connection does, and changes
nothing but the log. -/
theorem Get_absent (rdb : Rdb) (key : String) (h : lookup key rdb.data = none) :
    ∃ e fs, rdb.Get key = (Except.error e, ⟨rdb.data, fs, rdb.log ++ [Cmd.get key]⟩) := by
  obtain ⟨data, faults, log⟩ := rdb
  simp only at h
  rcases faults with _ | ⟨f, fs⟩
  · exact ⟨GoError.redisNil, [], by simp [Rdb.Get, Rdb.send, h]⟩
  · cases f with
    | none => exact ⟨GoError.redisNil, fs, by simp [Rdb.Get, Rdb.send, h]⟩
    | some msg => exact ⟨GoError.redisConn msg, fs, by simp [Rdb.Get, Rdb.send]⟩

/-- Every way `PutUser` can go once the body is bound: the key is found (400,
one command, data untouched), or the record is written under `user:<username>`
(200), or that write fails (500, data untouched). -/
theorem PutUser_outcome (rdb : Rdb) (body : String) (newUser : User)
    (hbody : ShouldBindJSONUser body = some newUser) :
    (issued (PutUser body) rdb = [Cmd.get ("user:" ++ newUser.Username)] ∧
        (PutUser body rdb).1.status = StatusBadRequest ∧
        (PutUser body rdb).2.data = rdb.data) ∨
      (issued (PutUser body) rdb = [Cmd.get ("user:" ++ newUser.Username),
          Cmd.set ("user:" ++ newUser.Username) (String.mk (marshalUser newUser))] ∧
        (((PutUser body rdb).1 = ⟨StatusOK, Payload.user newUser⟩ ∧
            (∀ msg, rdb.faults.get? 1 ≠ some (some msg)) ∧
            (PutUser body rdb).2.data = upsert ("user:" ++ newUser.Username)
              (String.mk (marshalUser newUser)) rdb.data) ∨
          ((PutUser body rdb).1.status = StatusInternalServerError ∧
            (∃ msg, rdb.faults.get? 1 = some (some msg)) ∧
            (PutUser body rdb).2.data = rdb.data))) := by
  obtain ⟨data, faults, log⟩ := rdb
  unfold issued PutUser
  rw [hbody]
  rcases faults with _ | ⟨f, fs⟩
  · cases hl : lookup ("user:" ++ newUser.Username) data <;>
      simp [Rdb.Get, Rdb.Set, Rdb.send, Marshal, hl]
  · rcases fs with _ | ⟨g, gs⟩
    · cases f <;> cases hl : lookup ("user:" ++ newUser.Username) data <;>
        simp [Rdb.Get, Rdb.Set, Rdb.send, Marshal, hl]
    · cases f <;> cases g <;> cases hl : lookup ("user:" ++ newUser.Username) data <;>
        simp [Rdb.Get, Rdb.Set, Rdb.send, Marshal, hl, StatusOK, StatusBadRequest,
          StatusInternalServerError]

/-- The loop of `GetAllUsers` only reads, and stops with 500 at the first
command that fails. -/
theorem GetAllUsers_loop_trace : ∀ (keys : List String) (acc : Slice User) (rdb : Rdb),
    ∃ cmds, (GetAllUsers.loop keys acc rdb).2.log = rdb.log ++ cmds ∧
      (GetAllUsers.loop keys acc rdb).2.data = rdb.data ∧
      ∀ i msg, i < cmds.length → rdb.faults.get? i = some (some msg) →
        (GetAllUsers.loop keys acc rdb).1.status = StatusInternalServerError ∧
          cmds.length = i + 1 := by
  intro keys
  induction keys with
  | nil =>
    intro acc rdb
    exact ⟨[], by simp [GetAllUsers.loop], rfl, fun i msg hi => by simp at hi⟩
  | cons key ks ih =>
    intro acc rdb
    obtain ⟨data, faults, log⟩ := rdb
    rcases faults with _ | ⟨f, fs⟩
    · cases hl : lookup key data with
      | none =>
        exact ⟨[Cmd.get key], by simp [GetAllUsers.loop, Rdb.Get, Rdb.send, hl],
          by simp [GetAllUsers.loop, Rdb.Get, Rdb.send, hl], fun i msg _ hf => by simp at hf⟩
      | some v =>
        cases hu : Unmarshal v with
        | none =>
          exact ⟨[Cmd.get key], by simp [GetAllUsers.loop, Rdb.Get, Rdb.send, hl, hu],
            by simp [GetAllUsers.loop, Rdb.Get, Rdb.send, hl, hu], fun i msg _ hf => by simp at hf⟩
        | some user =>
          obtain ⟨cmds, h1, h2, _⟩ := ih (Slice.append acc user) ⟨data, [], log ++ [Cmd.get key]⟩
          refine ⟨Cmd.get key :: cmds, ?_, ?_, fun i msg _ hf => by simp at hf⟩
          · simp [GetAllUsers.loop, Rdb.Get, Rdb.send, hl, hu, h1]
          · simp [GetAllUsers.loop, Rdb.Get, Rdb.send, hl, hu, h2]
    · cases f with
      | some m =>
        refine ⟨[Cmd.get key], by simp [GetAllUsers.loop, Rdb.Get, Rdb.send],
          by simp [GetAllUsers.loop, Rdb.Get, Rdb.send], fun i msg hi _ => ?_⟩
        simp at hi
        subst hi
        simp [GetAllUsers.loop, Rdb.Get, Rdb.send]
      | none =>
        cases hl : lookup key data with
        | none =>
          refine ⟨[Cmd.get key], by simp [GetAllUsers.loop, Rdb.Get, Rdb.send, hl],
            by simp [GetAllUsers.loop, Rdb.Get, Rdb.send, hl], fun i msg hi hf => ?_⟩
          simp at hi
          subst hi
          simp at hf
        | some v =>
          cases hu : Unmarshal v with
          | none =>
            refine ⟨[Cmd.get key], by simp [GetAllUsers.loop, Rdb.Get, Rdb.send, hl, hu],
              by simp [GetAllUsers.loop, Rdb.Get, Rdb.send, hl, hu], fun i msg hi hf => ?_⟩
            simp at hi
            subst hi
            simp at hf
          | some user =>
            obtain ⟨cmds, h1, h2, h3⟩ :=
              ih (Slice.append acc user) ⟨data, fs, log ++ [Cmd.get key]⟩
            refine ⟨Cmd.get key :: cmds, ?_, ?_, fun i msg hi hf => ?_⟩
            · simp [GetAllUsers.loop, Rdb.Get, Rdb.send, hl, hu, h1]
            · simp [GetAllUsers.loop, Rdb.Get, Rdb.send, hl, hu, h2]
            · cases i with
              | zero => simp at hf
              | succ j =>
                have := h3 j msg (by simpa using hi) (by simpa using hf)
                simp [GetAllUsers.loop, Rdb.Get, Rdb.send, hl, hu, this.1, this.2]

/-- `GetAllUsers` only reads, and stops with 500 at the first command that fails. -/
theorem GetAllUsers_trace (rdb : Rdb) :
    ∃ cmds, (GetAllUsers rdb).2.log = rdb.log ++ cmds ∧
      (GetAllUsers rdb).2.data = rdb.data ∧
      ∀ i msg, i < cmds.length → rdb.faults.get? i = some (some msg) →
        (GetAllUsers rdb).1.status = StatusInternalServerError ∧ cmds.length = i + 1 := by
  obtain ⟨data, faults, log⟩ := rdb
  rcases faults with _ | ⟨f, fs⟩
  · obtain ⟨cmds, h1, h2, _⟩ := GetAllUsers_loop_trace
      ((data.map Prod.fst).filter (fun k => globMatch "user:*".data k.data)) none
      ⟨data, [], log ++ [Cmd.keys "user:*"]⟩
    refine ⟨Cmd.keys "user:*" :: cmds, ?_, ?_, fun i msg _ hf => by simp at hf⟩
    · simp [GetAllUsers, Rdb.Keys, Rdb.send, h1]
    · simp [GetAllUsers, Rdb.Keys, Rdb.send, h2]
  · cases f with
    | some m =>
      refine ⟨[Cmd.keys "user:*"], by simp [GetAllUsers, Rdb.Keys, Rdb.send],
        by simp [GetAllUsers, Rdb.Keys, Rdb.send], fun i msg hi _ => ?_⟩
      simp at hi
      subst hi
      simp [GetAllUsers, Rdb.Keys, Rdb.send]
    | none =>
      obtain ⟨cmds, h1, h2, h3⟩ := GetAllUsers_loop_trace
        ((data.map Prod.fst).filter (fun k => globMatch "user:*".data k.data)) none
        ⟨data, fs, log ++ [Cmd.keys "user:*"]⟩
      refine ⟨Cmd.keys "user:*" :: cmds, ?_, ?_, fun i msg hi hf => ?_⟩
      · simp [GetAllUsers, Rdb.Keys, Rdb.send, h1]
      · simp [GetAllUsers, Rdb.Keys, Rdb.send, h2]
      · cases i with
        | zero => simp at hf
        | succ j =>
          have := h3 j msg (by simpa using hi) (by simpa using hf)
          simp [GetAllUsers, Rdb.Keys, Rdb.send, this.1, this.2]

theorem GetAllUsers_failStop (rdb : Rdb) : FailStop 0 GetAllUsers rdb := by
  obtain ⟨cmds, h1, _, h3⟩ := GetAllUsers_trace rdb
  intro i msg _ hi hf
  have hiss : issued GetAllUsers rdb = cmds := by simp [issued, h1]
  rw [hiss] at hi ⊢
  exact h3 i msg hi hf

/-- Every way `UpdatePoints` can go once the body is bound: the `Get` gives
nothing to work with (404 or 500, one command, data untouched), or the stored
user with the new points is written under the key of the stored username (200),
or that write fails (500, data untouched). -/
theorem UpdatePoints_outcome (rdb : Rdb) (username body : String) (d : UpdateData)
    (hbody : ShouldBindJSONPoints body = some d) :
    (issued (UpdatePoints username body) rdb = [Cmd.get ("user:" ++ username)] ∧
        (UpdatePoints username body rdb).1.status ≠ StatusOK ∧
        (UpdatePoints username body rdb).2.data = rdb.data) ∨
      (∃ v user, lookup ("user:" ++ username) rdb.data = some v ∧ Unmarshal v = some user ∧
        issued (UpdatePoints username body) rdb = [Cmd.get ("user:" ++ username),
          Cmd.set ("user:" ++ user.Username)
            (String.mk (marshalUser ⟨user.Username, d.Points⟩))] ∧
        (((UpdatePoints username body rdb).1
              = ⟨StatusOK, Payload.user ⟨user.Username, d.Points⟩⟩ ∧
            (∀ msg, rdb.faults.get? 1 ≠ some (some msg)) ∧
            (UpdatePoints username body rdb).2.data = upsert ("user:" ++ user.Username)
              (String.mk (marshalUser ⟨user.Username, d.Points⟩)) rdb.data) ∨
          ((UpdatePoints username body rdb).1.status = StatusInternalServerError ∧
            (∃ msg, rdb.faults.get? 1 = some (some msg)) ∧
            (UpdatePoints username body rdb).2.data = rdb.data))) := by
  obtain ⟨data, faults, log⟩ := rdb
  unfold issued UpdatePoints
  rw [hbody]
  cases hl : lookup ("user:" ++ username) data with
  | none =>
    rcases faults with _ | ⟨f, fs⟩
    · simp [Rdb.Get, Rdb.send, hl, StatusOK, StatusNotFound]
    · cases f <;> simp [Rdb.Get, Rdb.send, hl, StatusOK, StatusNotFound]
  | some v =>
    cases hu : Unmarshal v with
    | none =>
      rcases faults with _ | ⟨f, fs⟩
      · simp [Rdb.Get, Rdb.send, hl, hu, StatusOK, StatusInternalServerError]
      · cases f <;>
          simp [Rdb.Get, Rdb.send, hl, hu, StatusOK, StatusNotFound, StatusInternalServerError]
    | some user =>
      rcases faults with _ | ⟨f, fs⟩
      · simp [Rdb.Get, Rdb.Set, Rdb.send, hl, hu, Marshal]
      · rcases fs with _ | ⟨g, gs⟩
        · cases f <;>
            simp [Rdb.Get, Rdb.Set, Rdb.send, hl, hu, Marshal, StatusOK, StatusNotFound]
        · cases f <;> cases g <;>
            simp [Rdb.Get, Rdb.Set, Rdb.send, hl, hu, Marshal, StatusOK, StatusNotFound,
              StatusInternalServerError]

/-- Writing a record under the key of its own username keeps the store consistent. -/
theorem KeyConsistent_upsert {data : List (String × String)} (h : KeyConsistent data)
    (usr : User) (hr : inRange usr.Points) :
    KeyConsistent (upsert ("user:" ++ usr.Username) (String.mk (marshalUser usr)) data) := by
  intro u v hv
  by_cases hu : u = usr.Username
  · subst hu
    rw [lookup_upsert_same] at hv
    simp only [Option.some.injEq] at hv
    subst hv
    exact ⟨usr, Unmarshal_marshalUser usr hr, rfl⟩
  · have hne : "user:" ++ u ≠ "user:" ++ usr.Username := fun e => hu (userKey_injective e)
    rw [lookup_upsert_other _ _ hne] at hv
    exact h u v hv

theorem GetUserByName_data (username : String) (rdb : Rdb) :
    (GetUserByName username rdb).2.data = rdb.data := by
  obtain ⟨data, faults, log⟩ := rdb
  unfold GetUserByName
  rcases faults with _ | ⟨f, fs⟩
  · cases hl : lookup ("user:" ++ username) data with
    | none => simp [Rdb.Get, Rdb.send, hl]
    | some v => cases hu : Unmarshal v <;> simp [Rdb.Get, Rdb.send, hl, hu]
  · cases f with
    | some m => simp [Rdb.Get, Rdb.send]
    | none =>
      cases hl : lookup ("user:" ++ username) data with
      | none => simp [Rdb.Get, Rdb.send, hl]
      | some v => cases hu : Unmarshal v <;> simp [Rdb.Get, Rdb.send, hl, hu]

/-- Every handler keeps the store consistent, for every request. -/
theorem handle_KeyConsistent (req : Request) (rdb : Rdb) (h : KeyConsistent rdb.data) :
    KeyConsistent (handle req rdb).2.data := by
  cases req with
  | getAllUsers =>
    obtain ⟨_, _, hd, _⟩ := GetAllUsers_trace rdb
    simp only [handle]
    rw [hd]; exact h
  | getUserByName username =>
    simp only [handle]
    rw [GetUserByName_data]; exact h
  | putUser body =>
    simp only [handle]
    cases hb : ShouldBindJSONUser body with
    | none =>
      have : PutUser body rdb
          = (⟨StatusBadRequest, Payload.h [("error", HVal.str "Invalid JSON")]⟩, rdb) := by
        unfold PutUser; rw [hb]
      rw [this]; exact h
    | some newUser =>
      rcases PutUser_outcome rdb body newUser hb with
        ⟨_, _, hd⟩ | ⟨_, ⟨_, _, hd⟩ | ⟨_, _, hd⟩⟩
      · rw [hd]; exact h
      · rw [hd]; exact KeyConsistent_upsert h newUser (ShouldBindJSONUser_inRange hb)
      · rw [hd]; exact h
  | updatePoints username body =>
    simp only [handle]
    cases hb : ShouldBindJSONPoints body with
    | none =>
      have : UpdatePoints username body rdb
          = (⟨StatusBadRequest, Payload.h [("error", HVal.str "Invalid JSON")]⟩, rdb) := by
        unfold UpdatePoints; rw [hb]
      rw [this]; exact h
    | some d =>
      rcases UpdatePoints_outcome rdb username body d hb with
        ⟨_, _, hd⟩ | ⟨v, user, _, _, _, ⟨_, _, hd⟩ | ⟨_, _, hd⟩⟩
      · rw [hd]; exact h
      · rw [hd]
        exact KeyConsistent_upsert h ⟨user.Username, d.Points⟩ (ShouldBindJSONPoints_inRange hb)
      · rw [hd]; exact h

theorem Reachable_KeyConsistent (rdb : Rdb) (h : Reachable rdb) : KeyConsistent rdb.data := by
  induction h with
  | empty faults log => intro u v hv; simp [lookup] at hv
  | step req rdb faults _ ih => exact handle_KeyConsistent req _ ih

theorem Slice_foldl_append_elems (us : List User) :
    ∀ acc : Slice User, (us.foldl Slice.append acc).elems = acc.elems ++ us := by
  induction us with
  | nil => intro acc; simp
  | cons u rest ih =>
    intro acc
    simp only [List.foldl_cons]
    rw [ih]
    cases acc <;> simp [Slice.append, Slice.elems]

/-- On a healthy connection the loop of `GetAllUsers` collects the decoded
users in the order of the keys. -/
theorem GetAllUsers_loop_ok (data : List (String × String)) :
    ∀ (keys : List String) (us : List User) (acc : Slice User) (log : List Cmd),
      List.Forall₂ (fun k u => ∃ v, lookup k data = some v ∧ Unmarshal v = some u) keys us →
      (GetAllUsers.loop keys acc ⟨data, [], log⟩).1
        = ⟨StatusOK, Payload.users (us.foldl Slice.append acc)⟩ := by
  intro keys us acc log h
  induction h generalizing acc log with
  | nil => simp [GetAllUsers.loop]
  | cons hku _ ih =>
    obtain ⟨v, hv, hu⟩ := hku
    simp only [GetAllUsers.loop, Get_healthy, hv, hu, List.foldl_cons]
    exact ih _ _

/-- The keys `GetAllUsers` enumerates. -/
theorem GetAllUsers_healthy (data : List (String × String)) (log : List Cmd) :
    GetAllUsers ⟨data, [], log⟩ =
      GetAllUsers.loop ((data.map Prod.fst).filter (fun k => globMatch "user:*".data k.data))
        none ⟨data, [], log ++ [Cmd.keys "user:*"]⟩ := by
  simp [GetAllUsers, Rdb.Keys, Rdb.send]

theorem NoUserKeys_filter {data : List (String × String)} (h : NoUserKeys data) :
    (data.map Prod.fst).filter (fun k => globMatch "user:*".data k.data) = [] := by
  rw [List.filter_eq_nil_iff]
  intro k hk
  obtain ⟨kv, hkv, rfl⟩ := List.mem_map.1 hk
  simp [h kv hkv]

theorem lookup_append (key : String) (d1 d2 : List (String × String)) :
    lookup key (d1 ++ d2) = (lookup key d1).orElse (fun _ => lookup key d2) := by
  induction d1 with
  | nil => simp [lookup]
  | cons kv rest ih =>
    obtain ⟨k, v⟩ := kv
    by_cases h : k = key
    · simp [lookup, h]
    · simp [lookup, h, ih]

theorem NoUserKeys_lookup {data : List (String × String)} (h : NoUserKeys data) (u : String) :
    lookup ("user:" ++ u) data = none := by
  induction data with
  | nil => rfl
  | cons kv rest ih =>
    obtain ⟨k, v⟩ := kv
    have hk : k ≠ "user:" ++ u := by
      intro e
      have hg : globMatch "user:*".data k.data = false := h (k, v) (List.mem_cons_self _ _)
      rw [e, globMatch_userKey] at hg
      exact Bool.noConfusion hg
    have hrest : NoUserKeys rest := fun kv hkv => h kv (List.mem_cons_of_mem _ hkv)
    simp [lookup, hk, ih hrest]

/-- A run of creations with new, pairwise distinct usernames: every call
answers 200 and the records are appended to the store in order. -/
theorem createAll_new : ∀ (users : List User) (bodies : List String)
    (data : List (String × String)) (log : List Cmd),
    bodies.map ShouldBindJSONUser = users.map some →
    (users.map User.Username).Nodup →
    (∀ u ∈ users, lookup ("user:" ++ u.Username) data = none) →
    ∃ log1, createAll bodies ⟨data, [], log⟩ =
      (users.map (fun u => (⟨StatusOK, Payload.user u⟩ : Response)),
        ⟨data ++ users.map (fun u => ("user:" ++ u.Username, String.mk (marshalUser u))),
          [], log1⟩) := by
  intro users
  induction users with
  | nil =>
    intro bodies data log hb _ _
    cases bodies with
    | nil => exact ⟨log, by simp [createAll]⟩
    | cons b bs => simp at hb
  | cons u us ih =>
    intro bodies data log hb hnd habs
    cases bodies with
    | nil => simp at hb
    | cons b bs =>
      simp only [List.map_cons, List.cons.injEq] at hb
      obtain ⟨hb1, hb2⟩ := hb
      simp only [List.map_cons, List.nodup_cons] at hnd
      obtain ⟨hnotin, hnd2⟩ := hnd
      have hput := PutUser_new data log b u hb1 (habs u (List.mem_cons_self _ _))
      have habs2 : ∀ w ∈ us, lookup ("user:" ++ w.Username)
          (data ++ [("user:" ++ u.Username, String.mk (marshalUser u))]) = none := by
        intro w hw
        have hne : ¬ "user:" ++ u.Username = "user:" ++ w.Username := by
          intro e
          have := userKey_injective e
          exact hnotin (this ▸ List.mem_map_of_mem _ hw)
        rw [lookup_append, habs w (List.mem_cons_of_mem _ hw)]
        simp [lookup, hne]
      obtain ⟨log1, hrest⟩ := ih bs _ (log ++ [Cmd.get ("user:" ++ u.Username),
        Cmd.set ("user:" ++ u.Username) (String.mk (marshalUser u))]) hb2 hnd2 habs2
      refine ⟨log1, ?_⟩
      simp only [createAll, hput, hrest]
      simp

/-- In a store made of entries without user keys followed by the records of
users with pairwise distinct usernames, each user's key holds its record. -/
theorem lookup_created (data : List (String × String)) (hnone : NoUserKeys data) :
    ∀ (users : List User), (users.map User.Username).Nodup →
    ∀ u ∈ users, lookup ("user:" ++ u.Username)
      (data ++ users.map (fun u => ("user:" ++ u.Username, String.mk (marshalUser u))))
        = some (String.mk (marshalUser u)) := by
  intro users hnd u hu
  rw [lookup_append, NoUserKeys_lookup hnone]
  simp only [Option.orElse]
  clear hnone
  induction users with
  | nil => simp at hu
  | cons w ws ih =>
    simp only [List.map_cons, List.nodup_cons] at hnd
    obtain ⟨hnotin, hnd2⟩ := hnd
    rcases List.mem_cons.1 hu with rfl | hmem
    · simp [lookup]
    · have hne : ¬ "user:" ++ w.Username = "user:" ++ u.Username := by
        intro e
        have := userKey_injective e
        exact hnotin (this ▸ List.mem_map_of_mem _ hmem)
      simp only [List.map_cons, lookup, hne, if_false]
      exact ih hnd2 hmem

theorem created_keys (data : List (String × String)) (hnone : NoUserKeys data)
    (users : List User) :
    ((data ++ users.map (fun u => ("user:" ++ u.Username, String.mk (marshalUser u)))).map
        Prod.fst).filter (fun k => globMatch "user:*".data k.data)
      = users.map (fun u => "user:" ++ u.Username) := by
  rw [List.map_append, List.filter_append, NoUserKeys_filter hnone, List.nil_append,
    List.map_map]
  have hmap : List.map (Prod.fst ∘ fun u : User =>
      ("user:" ++ u.Username, String.mk (marshalUser u))) users
        = users.map (fun u => "user:" ++ u.Username) := rfl
  rw [hmap]
  apply List.filter_eq_self.2
  intro k hk
  obtain ⟨u, _, rfl⟩ := List.mem_map.1 hk
  exact globMatch_userKey u.Username

theorem bound_users_inRange : ∀ (users : List User) (bodies : List String),
    bodies.map ShouldBindJSONUser = users.map some → ∀ u ∈ users, inRange u.Points := by
  intro users
  induction users with
  | nil => intro _ _ u hu; simp at hu
  | cons w ws ih =>
    intro bodies hb u hu
    cases bodies with
    | nil => simp at hb
    | cons b bs =>
      simp only [List.map_cons, List.cons.injEq] at hb
      rcases List.mem_cons.1 hu with rfl | hmem
      · exact ShouldBindJSONUser_inRange hb.1
      · exact ih bs hb.2 u hmem

theorem Slice_foldl_append_some (us : List User) :
    ∀ l : List User, us.foldl Slice.append (some l) = some (l ++ us) := by
  induction us with
  | nil => intro l; simp
  | cons u rest ih =>
    intro l
    simp only [List.foldl_cons, Slice.append]
    rw [ih]
    simp

/-- On a healthy connection, when every enumerated key holds a value that
decodes, `GetAllUsers` answers 200 with the decoded users in key-enumeration
order; with at least one user the text written is a JSON array. -/
theorem GetAllUsers_in_key_order (data : List (String × String)) (log : List Cmd)
    (us : List User)
    (h : List.Forall₂ (fun k u => ∃ v, lookup k data = some v ∧ Unmarshal v = some u)
      ((data.map Prod.fst).filter (fun k => globMatch "user:*".data k.data)) us) :
    (GetAllUsers ⟨data, [], log⟩).1
        = ⟨StatusOK, Payload.users (us.foldl Slice.append none)⟩ ∧
      (us.foldl Slice.append none).elems = us ∧
      (us ≠ [] → renderUsers (us.foldl Slice.append none)
        = String.mk ("[".data ++ ",".data.intercalate (us.map marshalUser) ++ "]".data)) := by
  refine ⟨?_, ?_, ?_⟩
  · rw [GetAllUsers_healthy]
    exact GetAllUsers_loop_ok data _ us none _ h
  · rw [Slice_foldl_append_elems]
    simp [Slice.elems]
  · intro hne
    cases us with
    | nil => exact absurd rfl hne
    | cons u rest =>
      simp only [List.foldl_cons, Slice.append]
      rw [Slice_foldl_append_some]
      rfl

/-! ## The properties of the service -/

/-- C1. Create-then-get round trip: on a store where the key `user:<u>` is
absent (and whose connection does not fail), `PutUser` with a body that decodes
to the user `(u, p)` responds 200 with that record, and `GetUserByName` for
`u` on the resulting store responds 200 with the same record. -/
theorem create_then_get_round_trip (rdb : Rdb) (body u : String) (p : Int)
    (hconn : rdb.faults = [])
    (hbody : ShouldBindJSONUser body = some ⟨u, p⟩)
    (habsent : lookup ("user:" ++ u) rdb.data = none) :
    (PutUser body rdb).1 = ⟨StatusOK, Payload.user ⟨u, p⟩⟩ ∧
      (GetUserByName u (PutUser body rdb).2).1 = ⟨StatusOK, Payload.user ⟨u, p⟩⟩ := by
  obtain ⟨data, faults, log⟩ := rdb
  simp only at hconn habsent
  subst hconn
  have hput := PutUser_new data log body ⟨u, p⟩ hbody habsent
  refine ⟨by rw [hput], ?_⟩
  rw [hput]
  have hlook : lookup ("user:" ++ u)
      (data ++ [("user:" ++ u, String.mk (marshalUser ⟨u, p⟩))])
        = some (String.mk (marshalUser ⟨u, p⟩)) := by
    rw [← upsert_absent _ habsent]
    exact lookup_upsert_same _ _ _
  simp only []
  rw [GetUserByName_found _ _ u _ ⟨u, p⟩ hlook
    (Unmarshal_marshalUser _ (ShouldBindJSONUser_inRange hbody))]

theorem create_then_get_round_trip_witness :
    (PutUser "\x7b\"username\":\"alice\",\"points\":10\x7d" ⟨[("motd", "hi")], [], []⟩).1
        = ⟨StatusOK, Payload.user ⟨"alice", 10⟩⟩ ∧
      (GetUserByName "alice"
        (PutUser "\x7b\"username\":\"alice\",\"points\":10\x7d" ⟨[("motd", "hi")], [], []⟩).2).1
        = ⟨StatusOK, Payload.user ⟨"alice", 10⟩⟩ :=
  create_then_get_round_trip ⟨[("motd", "hi")], [], []⟩
    "\x7b\"username\":\"alice\",\"points\":10\x7d" "alice" 10 rfl (by decide) (by decide)

/-- C2. Duplicate create is rejected without effect: on a store that holds a
value under `user:<u>` (connection not failing), `PutUser` with a body that
decodes to `(u, p)` responds 400 with `{"error":"User already exists"}` and the
stored data are exactly what they were, the value under `user:<u>` included. -/
theorem duplicate_create_rejected (rdb : Rdb) (body u v : String) (p : Int)
    (hconn : rdb.faults = [])
    (hbody : ShouldBindJSONUser body = some ⟨u, p⟩)
    (hpresent : lookup ("user:" ++ u) rdb.data = some v) :
    (PutUser body rdb).1
        = ⟨StatusBadRequest, Payload.h [("error", HVal.str "User already exists")]⟩ ∧
      (PutUser body rdb).2.data = rdb.data ∧
      lookup ("user:" ++ u) (PutUser body rdb).2.data = some v ∧
      issued (PutUser body) rdb = [Cmd.get ("user:" ++ u)] := by
  obtain ⟨data, faults, log⟩ := rdb
  simp only at hconn hpresent
  subst hconn
  unfold issued PutUser
  rw [hbody]
  simp only [Get_healthy, hpresent]
  simp

theorem duplicate_create_rejected_witness :
    (PutUser "\x7b\"username\":\"alice\",\"points\":99\x7d"
        ⟨[("user:alice", "\x7b\"username\":\"alice\",\"points\":10\x7d")], [], []⟩).1
        = ⟨StatusBadRequest, Payload.h [("error", HVal.str "User already exists")]⟩ ∧
      (PutUser "\x7b\"username\":\"alice\",\"points\":99\x7d"
        ⟨[("user:alice", "\x7b\"username\":\"alice\",\"points\":10\x7d")], [], []⟩).2.data
        = [("user:alice", "\x7b\"username\":\"alice\",\"points\":10\x7d")] ∧
      lookup ("user:" ++ "alice")
        (PutUser "\x7b\"username\":\"alice\",\"points\":99\x7d"
          ⟨[("user:alice", "\x7b\"username\":\"alice\",\"points\":10\x7d")], [], []⟩).2.data
        = some "\x7b\"username\":\"alice\",\"points\":10\x7d" ∧
      issued (PutUser "\x7b\"username\":\"alice\",\"points\":99\x7d")
        ⟨[("user:alice", "\x7b\"username\":\"alice\",\"points\":10\x7d")], [], []⟩
        = [Cmd.get ("user:" ++ "alice")] :=
  duplicate_create_rejected
    ⟨[("user:alice", "\x7b\"username\":\"alice\",\"points\":10\x7d")], [], []⟩
    "\x7b\"username\":\"alice\",\"points\":99\x7d" "alice"
    "\x7b\"username\":\"alice\",\"points\":10\x7d" 99 rfl (by decide) (by decide)

/-- C3, as stated, fails: with the value of the user `bob` stored under the key
`user:alice`, `UpdatePoints` for `alice` answers 200 and writes under
`user:bob`; the record under `user:alice` keeps its points, and so does a
following `GetUserByName` for `alice`. -/
theorem update_points_stated_for_any_stored_user_fails :
    ¬ ∀ (rdb : Rdb) (u body v : String) (p : Int) (cur : User),
      rdb.faults = [] →
      ShouldBindJSONPoints body = some ⟨p⟩ →
      lookup ("user:" ++ u) rdb.data = some v →
      Unmarshal v = some cur →
      (UpdatePoints u body rdb).1 = ⟨StatusOK, Payload.user ⟨cur.Username, p⟩⟩ ∧
        (∃ v1, lookup ("user:" ++ u) (UpdatePoints u body rdb).2.data = some v1 ∧
          Unmarshal v1 = some ⟨cur.Username, p⟩) ∧
        (GetUserByName u (UpdatePoints u body rdb).2).1
          = ⟨StatusOK, Payload.user ⟨cur.Username, p⟩⟩ := by
  intro h
  have h1 := h ⟨[("user:alice", "\x7b\"username\":\"bob\",\"points\":1\x7d")], [], []⟩
    "alice" "\x7b\"points\":5\x7d" "\x7b\"username\":\"bob\",\"points\":1\x7d" 5 ⟨"bob", 1⟩
    rfl (by decide) (by decide) (by decide)
  exact absurd h1.2.2 (by decide)

/-- C3, amended. Update changes only points: when the key `user:<u>` holds a
value that decodes to a user whose username is `u` (connection not failing),
`UpdatePoints` for `u` with a body that decodes to points `p` responds 200
with the stored username and points `p`; afterwards the record under
`user:<u>` has that username and points `p`, and `GetUserByName` for `u`
returns it. -/
theorem update_changes_only_points (rdb : Rdb) (u body v : String) (p : Int) (cur : User)
    (hconn : rdb.faults = [])
    (hbody : ShouldBindJSONPoints body = some ⟨p⟩)
    (hv : lookup ("user:" ++ u) rdb.data = some v)
    (hdec : Unmarshal v = some cur)
    (hname : cur.Username = u) :
    (UpdatePoints u body rdb).1 = ⟨StatusOK, Payload.user ⟨cur.Username, p⟩⟩ ∧
      (∃ v1, lookup ("user:" ++ u) (UpdatePoints u body rdb).2.data = some v1 ∧
        Unmarshal v1 = some ⟨cur.Username, p⟩) ∧
      (GetUserByName u (UpdatePoints u body rdb).2).1
        = ⟨StatusOK, Payload.user ⟨cur.Username, p⟩⟩ := by
  obtain ⟨data, faults, log⟩ := rdb
  simp only at hconn hv
  subst hconn
  have hup := UpdatePoints_found data log u body v ⟨p⟩ cur hbody hv hdec
  have hrt : Unmarshal (String.mk (marshalUser ⟨cur.Username, p⟩)) = some ⟨cur.Username, p⟩ :=
    Unmarshal_marshalUser _ (ShouldBindJSONPoints_inRange hbody)
  have hlook : lookup ("user:" ++ u)
      (upsert ("user:" ++ cur.Username) (String.mk (marshalUser ⟨cur.Username, p⟩)) data)
        = some (String.mk (marshalUser ⟨cur.Username, p⟩)) := by
    rw [hname]
    exact lookup_upsert_same _ _ _
  rw [hup]
  refine ⟨rfl, ⟨_, hlook, hrt⟩, ?_⟩
  simp only []
  rw [GetUserByName_found _ _ u _ _ hlook hrt]

theorem update_changes_only_points_witness :
    (UpdatePoints "alice" "\x7b\"points\":25\x7d"
        ⟨[("user:alice", "\x7b\"username\":\"alice\",\"points\":10\x7d")], [], []⟩).1
        = ⟨StatusOK, Payload.user ⟨"alice", 25⟩⟩ ∧
      (∃ v1, lookup ("user:" ++ "alice")
          (UpdatePoints "alice" "\x7b\"points\":25\x7d"
            ⟨[("user:alice", "\x7b\"username\":\"alice\",\"points\":10\x7d")], [], []⟩).2.data
            = some v1 ∧
        Unmarshal v1 = some ⟨"alice", 25⟩) ∧
      (GetUserByName "alice"
        (UpdatePoints "alice" "\x7b\"points\":25\x7d"
          ⟨[("user:alice", "\x7b\"username\":\"alice\",\"points\":10\x7d")], [], []⟩).2).1
        = ⟨StatusOK, Payload.user ⟨"alice", 25⟩⟩ :=
  update_changes_only_points
    ⟨[("user:alice", "\x7b\"username\":\"alice\",\"points\":10\x7d")], [], []⟩
    "alice" "\x7b\"points\":25\x7d" "\x7b\"username\":\"alice\",\"points\":10\x7d" 25
    ⟨"alice", 10⟩ rfl (by decide) (by decide) (by decide) rfl

/-- C4. Update of a missing user is rejected without effect: when the key
`user:<u>` is absent, `UpdatePoints` for `u` with a well-formed body responds
404 with `{"error":"User not found"}`, the stored data are what they were, and
the only command sent is the `Get` (no `Set`). -/
theorem update_missing_user_rejected (rdb : Rdb) (u body : String) (d : UpdateData)
    (hbody : ShouldBindJSONPoints body = some d)
    (habsent : lookup ("user:" ++ u) rdb.data = none) :
    (UpdatePoints u body rdb).1
        = ⟨StatusNotFound, Payload.h [("error", HVal.str "User not found")]⟩ ∧
      (UpdatePoints u body rdb).2.data = rdb.data ∧
      issued (UpdatePoints u body) rdb = [Cmd.get ("user:" ++ u)] := by
  obtain ⟨e, fs, hget⟩ := Get_absent rdb _ habsent
  unfold issued UpdatePoints
  rw [hbody]
  simp only [hget]
  simp

theorem update_missing_user_rejected_witness :
    (UpdatePoints "carol" "\x7b\"points\":25\x7d"
        ⟨[("user:alice", "\x7b\"username\":\"alice\",\"points\":10\x7d")], [], []⟩).1
        = ⟨StatusNotFound, Payload.h [("error", HVal.str "User not found")]⟩ ∧
      (UpdatePoints "carol" "\x7b\"points\":25\x7d"
        ⟨[("user:alice", "\x7b\"username\":\"alice\",\"points\":10\x7d")], [], []⟩).2.data
        = [("user:alice", "\x7b\"username\":\"alice\",\"points\":10\x7d")] ∧
      issued (UpdatePoints "carol" "\x7b\"points\":25\x7d")
        ⟨[("user:alice", "\x7b\"username\":\"alice\",\"points\":10\x7d")], [], []⟩
        = [Cmd.get ("user:" ++ "carol")] :=
  update_missing_user_rejected
    ⟨[("user:alice", "\x7b\"username\":\"alice\",\"points\":10\x7d")], [], []⟩
    "carol" "\x7b\"points\":25\x7d" ⟨25⟩ (by decide) (by decide)

/-- C5. List returns exactly what was created: starting from a store without
any key matching `user:*` (connection not failing), after `PutUser` calls whose
bodies decode to users with pairwise distinct usernames, every call has
answered 200 with its record, and `GetAllUsers` responds 200 with a slice of as
many users as there were calls, a permutation of the created records. -/
theorem list_returns_what_was_created (rdb : Rdb) (bodies : List String) (users : List User)
    (hconn : rdb.faults = [])
    (hnone : NoUserKeys rdb.data)
    (hbodies : bodies.map ShouldBindJSONUser = users.map some)
    (hdistinct : (users.map User.Username).Nodup) :
    (createAll bodies rdb).1 = users.map (fun u => (⟨StatusOK, Payload.user u⟩ : Response)) ∧
      ∃ sl, (GetAllUsers (createAll bodies rdb).2).1 = ⟨StatusOK, Payload.users sl⟩ ∧
        sl.elems.length = bodies.length ∧ sl.elems.Perm users := by
  obtain ⟨data, faults, log⟩ := rdb
  simp only at hconn hnone
  subst hconn
  obtain ⟨log1, hrun⟩ := createAll_new users bodies data log hbodies hdistinct
    (fun u _ => NoUserKeys_lookup hnone u.Username)
  rw [hrun]
  refine ⟨rfl, users.foldl Slice.append none, ?_, ?_, ?_⟩
  · simp only []
    rw [GetAllUsers_healthy, created_keys data hnone users]
    apply GetAllUsers_loop_ok
    rw [List.forall₂_map_left_iff, List.forall₂_same]
    intro u hu
    exact ⟨_, lookup_created data hnone users hdistinct u hu,
      Unmarshal_marshalUser u (bound_users_inRange users bodies hbodies u hu)⟩
  · rw [Slice_foldl_append_elems]
    have := congrArg List.length hbodies
    simp at this
    simp [Slice.elems, this]
  · rw [Slice_foldl_append_elems]
    simp [Slice.elems]

theorem list_returns_what_was_created_witness :
    (createAll ["\x7b\"username\":\"alice\",\"points\":10\x7d",
          "\x7b\"username\":\"bob\",\"points\":-3\x7d"] ⟨[("motd", "hi")], [], []⟩).1
        = [(⟨"alice", 10⟩ : User), ⟨"bob", -3⟩].map
            (fun u => (⟨StatusOK, Payload.user u⟩ : Response)) ∧
      ∃ sl, (GetAllUsers (createAll ["\x7b\"username\":\"alice\",\"points\":10\x7d",
          "\x7b\"username\":\"bob\",\"points\":-3\x7d"] ⟨[("motd", "hi")], [], []⟩).2).1
          = ⟨StatusOK, Payload.users sl⟩ ∧
        sl.elems.length = ["\x7b\"username\":\"alice\",\"points\":10\x7d",
          "\x7b\"username\":\"bob\",\"points\":-3\x7d"].length ∧
        sl.elems.Perm [(⟨"alice", 10⟩ : User), ⟨"bob", -3⟩] :=
  list_returns_what_was_created ⟨[("motd", "hi")], [], []⟩
    ["\x7b\"username\":\"alice\",\"points\":10\x7d", "\x7b\"username\":\"bob\",\"points\":-3\x7d"]
    [⟨"alice", 10⟩, ⟨"bob", -3⟩] rfl (by decide) (by decide) (by decide)

/-- C6. Malformed bodies are rejected before any store access: a body that
fails to bind makes `PutUser`, and `UpdatePoints` for any path username,
respond 400 with `{"error":"Invalid JSON"}` and hand back the store exactly as
it was, no command sent. -/
theorem malformed_body_rejected (rdb : Rdb) (username body : String) :
    (ShouldBindJSONUser body = none →
      PutUser body rdb
        = (⟨StatusBadRequest, Payload.h [("error", HVal.str "Invalid JSON")]⟩, rdb)) ∧
    (ShouldBindJSONPoints body = none →
      UpdatePoints username body rdb
        = (⟨StatusBadRequest, Payload.h [("error", HVal.str "Invalid JSON")]⟩, rdb)) := by
  constructor
  · intro h
    unfold PutUser
    rw [h]
  · intro h
    unfold UpdatePoints
    rw [h]

theorem malformed_body_rejected_witness :
    PutUser "\x7b\"username\":" ⟨[("user:alice", "\x7b\"username\":\"alice\",\"points\":10\x7d")], [], []⟩
        = (⟨StatusBadRequest, Payload.h [("error", HVal.str "Invalid JSON")]⟩,
          ⟨[("user:alice", "\x7b\"username\":\"alice\",\"points\":10\x7d")], [], []⟩) ∧
      UpdatePoints "alice" "\x7b\"points\":\"ten\"\x7d"
          ⟨[("user:alice", "\x7b\"username\":\"alice\",\"points\":10\x7d")], [], []⟩
        = (⟨StatusBadRequest, Payload.h [("error", HVal.str "Invalid JSON")]⟩,
          ⟨[("user:alice", "\x7b\"username\":\"alice\",\"points\":10\x7d")], [], []⟩) :=
  ⟨(malformed_body_rejected
      ⟨[("user:alice", "\x7b\"username\":\"alice\",\"points\":10\x7d")], [], []⟩
      "alice" "\x7b\"username\":").1 (by decide),
    (malformed_body_rejected
      ⟨[("user:alice", "\x7b\"username\":\"alice\",\"points\":10\x7d")], [], []⟩
      "alice" "\x7b\"points\":\"ten\"\x7d").2 (by decide)⟩

/-- C7, as stated, fails: a `Get` that fails with a communication error makes
`GetUserByName` answer 404, not 500. -/
theorem failing_get_is_not_a_500 :
    ¬ ∀ (username : String) (rdb : Rdb), FailStop 0 (GetUserByName username) rdb := by
  intro h
  have h1 := (h "alice" ⟨[], [some "i/o timeout"], []⟩ 0 "i/o timeout" (by decide)
    (by decide) (by decide)).1
  exact absurd h1 (by decide)

/-- C7, amended. Store failures, handler by handler: `GetAllUsers` answers 500
to any failing `Keys` or `Get` and sends nothing after it; in `PutUser` and
`UpdatePoints` a failing `Set` is answered 500 and is the last command. A
failing `Get` in the single-key handlers is not told apart from an absent key:
`GetUserByName` and `UpdatePoints` answer 404 `User not found` and send nothing
more, and `PutUser` goes on to the `Set` of the new record. -/
theorem store_failures_by_handler (rdb : Rdb) (username body msg : String) :
    FailStop 0 GetAllUsers rdb ∧
    FailStop 1 (PutUser body) rdb ∧
    FailStop 1 (UpdatePoints username body) rdb ∧
    (rdb.faults.head? = some (some msg) →
      (GetUserByName username rdb).1
          = ⟨StatusNotFound, Payload.h [("error", HVal.str "User not found")]⟩ ∧
        issued (GetUserByName username) rdb = [Cmd.get ("user:" ++ username)]) ∧
    (rdb.faults.head? = some (some msg) → ∀ d, ShouldBindJSONPoints body = some d →
      (UpdatePoints username body rdb).1
          = ⟨StatusNotFound, Payload.h [("error", HVal.str "User not found")]⟩ ∧
        issued (UpdatePoints username body) rdb = [Cmd.get ("user:" ++ username)]) ∧
    (rdb.faults.head? = some (some msg) → ∀ newUser, ShouldBindJSONUser body = some newUser →
      issued (PutUser body) rdb = [Cmd.get ("user:" ++ newUser.Username),
        Cmd.set ("user:" ++ newUser.Username) (String.mk (marshalUser newUser))]) := by
  refine ⟨GetAllUsers_failStop rdb, ?_, ?_, ?_, ?_, ?_⟩
  · intro i m h1 hi hf
    cases hb : ShouldBindJSONUser body with
    | none =>
      have : PutUser body rdb
          = (⟨StatusBadRequest, Payload.h [("error", HVal.str "Invalid JSON")]⟩, rdb) := by
        unfold PutUser; rw [hb]
      simp [issued, this] at hi
    | some newUser =>
      rcases PutUser_outcome rdb body newUser hb with ⟨hiss, _, _⟩ | ⟨hiss, hres⟩
      · rw [hiss] at hi; simp at hi; omega
      · rw [hiss] at hi ⊢
        simp at hi
        have hi1 : i = 1 := by omega
        subst hi1
        rcases hres with ⟨_, hno, _⟩ | ⟨hs, _, _⟩
        · exact absurd hf (hno m)
        · exact ⟨hs, rfl⟩
  · intro i m h1 hi hf
    cases hb : ShouldBindJSONPoints body with
    | none =>
      have : UpdatePoints username body rdb
          = (⟨StatusBadRequest, Payload.h [("error", HVal.str "Invalid JSON")]⟩, rdb) := by
        unfold UpdatePoints; rw [hb]
      simp [issued, this] at hi
    | some d =>
      rcases UpdatePoints_outcome rdb username body d hb with
        ⟨hiss, _, _⟩ | ⟨v, user, _, _, hiss, hres⟩
      · rw [hiss] at hi; simp at hi; omega
      · rw [hiss] at hi ⊢
        simp at hi
        have hi1 : i = 1 := by omega
        subst hi1
        rcases hres with ⟨_, hno, _⟩ | ⟨hs, _, _⟩
        · exact absurd hf (hno m)
        · exact ⟨hs, rfl⟩
  · intro hf
    obtain ⟨data, faults, log⟩ := rdb
    rcases faults with _ | ⟨f, fs⟩
    · simp at hf
    · simp at hf
      subst hf
      simp [GetUserByName, issued, Rdb.Get, Rdb.send]
  · intro hf d hb
    obtain ⟨data, faults, log⟩ := rdb
    rcases faults with _ | ⟨f, fs⟩
    · simp at hf
    · simp at hf
      subst hf
      simp [UpdatePoints, hb, issued, Rdb.Get, Rdb.send]
  · intro hf newUser hb
    obtain ⟨data, faults, log⟩ := rdb
    rcases faults with _ | ⟨f, fs⟩
    · simp at hf
    · simp at hf
      subst hf
      rcases fs with _ | ⟨g, gs⟩
      · simp [PutUser, hb, issued, Rdb.Get, Rdb.Set, Rdb.send, Marshal]
      · cases g <;> simp [PutUser, hb, issued, Rdb.Get, Rdb.Set, Rdb.send, Marshal]

theorem store_failures_by_handler_witness :
    (GetUserByName "alice"
        ⟨[("user:alice", "\x7b\"username\":\"alice\",\"points\":10\x7d")],
          [some "i/o timeout"], []⟩).1
        = ⟨StatusNotFound, Payload.h [("error", HVal.str "User not found")]⟩ ∧
      issued (GetUserByName "alice")
        ⟨[("user:alice", "\x7b\"username\":\"alice\",\"points\":10\x7d")],
          [some "i/o timeout"], []⟩ = [Cmd.get ("user:" ++ "alice")] :=
  (store_failures_by_handler
    ⟨[("user:alice", "\x7b\"username\":\"alice\",\"points\":10\x7d")], [some "i/o timeout"], []⟩
    "alice" "" "i/o timeout").2.2.2.1 rfl

/-- C8. Key/username consistency is an invariant: it holds of the empty store,
every handler preserves it for every request (whatever the connection does),
hence it holds in every store state reachable from the empty store through the
service; and in such a state a `Set` sent by `UpdatePoints` goes to the very key
its `Get` read. -/
theorem key_username_consistency :
    (∀ faults log, KeyConsistent (Rdb.mk [] faults log).data) ∧
    (∀ req rdb, KeyConsistent rdb.data → KeyConsistent (handle req rdb).2.data) ∧
    (∀ rdb, Reachable rdb → KeyConsistent rdb.data) ∧
    (∀ rdb username body k v, Reachable rdb →
      Cmd.set k v ∈ issued (UpdatePoints username body) rdb →
      k = "user:" ++ username ∧
        issued (UpdatePoints username body) rdb = [Cmd.get k, Cmd.set k v]) := by
  refine ⟨fun faults log => Reachable_KeyConsistent _ (Reachable.empty faults log),
    handle_KeyConsistent, Reachable_KeyConsistent, ?_⟩
  intro rdb username body k v hreach hmem
  have hinv := Reachable_KeyConsistent rdb hreach
  cases hb : ShouldBindJSONPoints body with
  | none =>
    have : UpdatePoints username body rdb
        = (⟨StatusBadRequest, Payload.h [("error", HVal.str "Invalid JSON")]⟩, rdb) := by
      unfold UpdatePoints; rw [hb]
    simp [issued, this] at hmem
  | some d =>
    rcases UpdatePoints_outcome rdb username body d hb with
      ⟨hiss, _, _⟩ | ⟨v1, user, hl, hu, hiss, _⟩
    · simp [hiss] at hmem
    · obtain ⟨usr, husr, hname⟩ := hinv username v1 hl
      rw [hu] at husr
      simp only [Option.some.injEq] at husr
      subst husr
      rw [hiss] at hmem ⊢
      simp at hmem
      obtain ⟨rfl, rfl⟩ := hmem
      rw [hname]
      exact ⟨rfl, rfl⟩

theorem key_username_consistency_witness :
    KeyConsistent
      (handle (Request.updatePoints "alice" "\x7b\"points\":25\x7d")
        { (handle (Request.putUser "\x7b\"username\":\"alice\",\"points\":10\x7d")
            { (Rdb.mk [] [] []) with faults := [] }).2 with faults := [] }).2.data :=
  key_username_consistency.2.2.1 _
    (Reachable.step (Request.updatePoints "alice" "\x7b\"points\":25\x7d") _ []
      (Reachable.step (Request.putUser "\x7b\"username\":\"alice\",\"points\":10\x7d") _ []
        (Reachable.empty [] [])))

/-- C9 fails on the store without users: `GetAllUsers` hands the nil slice to
`c.JSON`, which writes `null` and not the empty array `[]`. -/
theorem list_without_users_renders_null (rdb : Rdb) (hconn : rdb.faults = [])
    (hnone : NoUserKeys rdb.data) :
    ∃ sl, (GetAllUsers rdb).1 = ⟨StatusOK, Payload.users sl⟩ ∧
      renderUsers sl = "null" ∧ renderUsers sl ≠ "[]" := by
  obtain ⟨data, faults, log⟩ := rdb
  simp only at hconn hnone
  subst hconn
  refine ⟨none, ?_, rfl, by decide⟩
  rw [GetAllUsers_healthy, NoUserKeys_filter hnone]
  rfl

theorem list_without_users_renders_null_witness :
    ∃ sl, (GetAllUsers ⟨[("motd", "hi")], [], []⟩).1 = ⟨StatusOK, Payload.users sl⟩ ∧
      renderUsers sl = "null" ∧ renderUsers sl ≠ "[]" :=
  list_without_users_renders_null ⟨[("motd", "hi")], [], []⟩ rfl (by decide)

/-- C10, as stated, fails: a body without a `username` field binds to the empty
username; `PutUser` answers 200 and writes the record under the key `user:`. -/
theorem put_user_stores_empty_username :
    ¬ ∀ (rdb : Rdb) (body k v : String) (u : User),
      Cmd.set k v ∈ issued (PutUser body) rdb → Unmarshal v = some u → u.Username ≠ "" := by
  intro h
  exact absurd rfl
    (h ⟨[], [], []⟩ "\x7b\"points\":3\x7d" "user:" "\x7b\"username\":\"\",\"points\":3\x7d"
      ⟨"", 3⟩ (by decide) (by decide))

/-- C10, amended. The record `PutUser` writes is the one the body decodes to,
username unchecked: whenever `PutUser` sends a `Set`, the body bound to some
user, the key is `user:` followed by that user's username, the value decodes
back to that user, and a 200 response carries that user; and a body that binds
to the empty username (the field missing or empty) is written under the key
`user:` when that key is absent and the connection does not fail. -/
theorem put_user_writes_bound_record (rdb : Rdb) (body : String) :
    (∀ k v, Cmd.set k v ∈ issued (PutUser body) rdb →
      ∃ newUser, ShouldBindJSONUser body = some newUser ∧
        k = "user:" ++ newUser.Username ∧ Unmarshal v = some newUser ∧
        ((PutUser body rdb).1.status = StatusOK →
          (PutUser body rdb).1.body = Payload.user newUser)) ∧
    (∀ p, rdb.faults = [] → ShouldBindJSONUser body = some ⟨"", p⟩ →
      lookup "user:" rdb.data = none →
      (PutUser body rdb).1 = ⟨StatusOK, Payload.user ⟨"", p⟩⟩ ∧
        lookup "user:" (PutUser body rdb).2.data = some (String.mk (marshalUser ⟨"", p⟩))) := by
  constructor
  · intro k v hmem
    cases hb : ShouldBindJSONUser body with
    | none =>
      have : PutUser body rdb = (⟨StatusBadRequest, Payload.h [("error", HVal.str "Invalid JSON")]⟩, rdb) := by
        unfold PutUser; rw [hb]
      simp [issued, this] at hmem
    | some newUser =>
      refine ⟨newUser, rfl, ?_⟩
      have hrt := Unmarshal_marshalUser newUser (ShouldBindJSONUser_inRange hb)
      rcases PutUser_outcome rdb body newUser hb with ⟨hi, _, _⟩ | ⟨hi, hres⟩
      · simp [hi] at hmem
      · simp [hi] at hmem
        obtain ⟨rfl, rfl⟩ := hmem
        refine ⟨rfl, hrt, ?_⟩
        rcases hres with ⟨hr, _⟩ | ⟨hr, _⟩
        · intro _; rw [hr]
        · intro hs; rw [hr] at hs; exact absurd hs (by decide)
  · intro p hconn hb habsent
    obtain ⟨data, faults, log⟩ := rdb
    simp only at hconn habsent
    subst hconn
    have hk : "user:" ++ (⟨"", p⟩ : User).Username = "user:" := rfl
    have hput := PutUser_new data log body ⟨"", p⟩ hb (by rw [hk]; exact habsent)
    rw [hput]
    refine ⟨rfl, ?_⟩
    simp only [hk]
    rw [← upsert_absent _ habsent]
    exact lookup_upsert_same _ _ _

theorem put_user_writes_bound_record_witness :
    (PutUser "\x7b\"points\":3\x7d" ⟨[], [], []⟩).1 = ⟨StatusOK, Payload.user ⟨"", 3⟩⟩ ∧
      lookup "user:" (PutUser "\x7b\"points\":3\x7d" ⟨[], [], []⟩).2.data
        = some (String.mk (marshalUser ⟨"", 3⟩)) :=
  (put_user_writes_bound_record ⟨[], [], []⟩ "\x7b\"points\":3\x7d").2 3 rfl (by decide) rfl

end UserService
